import Mathlib

/-!
Verification of the datapack construction/reading engine of the Eden
revisionstore: a shallow embedding of `MutableDataPack` /
`MutableDataPackInner` (mutabledatapack.rs) and `DataEntry` / `DataPack`
(datapack.rs) over byte lists (`List Nat`, each element intended < 256),
with theorems settling the specification's testable properties.

Modelling conventions:
* machine integers are `Nat`; big-endian encodings are explicit byte lists;
* fallible code returns `Except Err`; a Rust `panic!`/`unimplemented!` is
  modelled by the distinguished `Err.panic` value (the code aborts there,
  it never returns);
* the lz4 codec and the sha1 hasher are external collaborators: functions
  `compress`/`decompress`/`hexdigest` are parameters, with the codec
  round-trip assumed where a theorem needs it; the hasher state is
  modelled as the list of bytes fed to it so far;
* the `Mutex` around the writer state is concurrency plumbing with no
  effect on the sequential semantics and is not modelled: operations act
  on the inner state directly;
* the buffered `PackWriter` is modelled by the list of bytes written so
  far (`fileBytes`); `flush_inner` is the identity in this model.
-/

/-- Decode a big-endian byte list to a natural number
(the value read by `read_u16::<BigEndian>` etc.). -/
def beNat (l : List Nat) : Nat :=
  l.foldl (fun a b => a * 256 + b) 0

/-- Big-endian 2-byte encoding of `n` (mod 2^16), as written by
`write_u16::<BigEndian>`. -/
def u16BE (n : Nat) : List Nat :=
  [n / 2 ^ 8 % 256, n % 256]

/-- Big-endian 4-byte encoding of `n` (mod 2^32). -/
def u32BE (n : Nat) : List Nat :=
  [n / 2 ^ 24 % 256, n / 2 ^ 16 % 256, n / 2 ^ 8 % 256, n % 256]

/-- Big-endian 8-byte encoding of `n` (mod 2^64), as written by
`write_u64::<BigEndian>`. -/
def u64BE (n : Nat) : List Nat :=
  [n / 2 ^ 56 % 256, n / 2 ^ 48 % 256, n / 2 ^ 40 % 256,
   n / 2 ^ 32 % 256, n / 2 ^ 24 % 256, n / 2 ^ 16 % 256,
   n / 2 ^ 8 % 256, n % 256]

theorem u16BE_length (n : Nat) : (u16BE n).length = 2 := rfl

theorem u32BE_length (n : Nat) : (u32BE n).length = 4 := rfl

theorem u64BE_length (n : Nat) : (u64BE n).length = 8 := rfl

theorem beNat_u16BE (n : Nat) (h : n < 2 ^ 16) : beNat (u16BE n) = n := by
  simp only [beNat, u16BE, List.foldl]
  omega

theorem beNat_u32BE (n : Nat) (h : n < 2 ^ 32) : beNat (u32BE n) = n := by
  simp only [beNat, u32BE, List.foldl]
  omega

theorem beNat_u64BE (n : Nat) (h : n < 2 ^ 64) : beNat (u64BE n) = n := by
  simp only [beNat, u64BE, List.foldl]
  omega

/-- Read `n` bytes of `buf` starting at position `p`, as a `Cursor`-backed
`read_exact` does: `none` exactly when fewer than `n` bytes remain. -/
def readBytes? (buf : List Nat) (p n : Nat) : Option (List Nat) :=
  if p + n ≤ buf.length then some ((buf.drop p).take n) else none

/-- Rust `buf.get(start..stop)` on a slice: `some` iff `start ≤ stop` and
`stop ≤ buf.len()`. -/
def sliceGet (buf : List Nat) (start stop : Nat) : Option (List Nat) :=
  if start ≤ stop ∧ stop ≤ buf.length then
    some ((buf.drop start).take (stop - start))
  else none

/-- Rust `cur.read_u16::<BigEndian>()` at position `p`. -/
def readU16? (buf : List Nat) (p : Nat) : Option Nat :=
  (readBytes? buf p 2).map beNat

/-- Rust `cur.read_u32::<BigEndian>()` at position `p`. -/
def readU32? (buf : List Nat) (p : Nat) : Option Nat :=
  (readBytes? buf p 4).map beNat

/-- Rust `cur.read_u64::<BigEndian>()` at position `p`. -/
def readU64? (buf : List Nat) (p : Nat) : Option Nat :=
  (readBytes? buf p 8).map beNat

theorem readBytes?_exact (pre mid post : List Nat) :
    readBytes? (pre ++ mid ++ post) pre.length mid.length = some mid := by
  unfold readBytes?
  rw [if_pos]
  · rw [List.append_assoc, List.drop_left, List.take_left]
  · simp [List.length_append]

theorem sliceGet_exact (pre mid post : List Nat) :
    sliceGet (pre ++ mid ++ post) pre.length (pre.length + mid.length) =
      some mid := by
  unfold sliceGet
  rw [if_pos]
  · rw [List.append_assoc, List.drop_left, Nat.add_sub_cancel_left,
      List.take_left]
  · constructor
    · omega
    · simp [List.length_append]

theorem readU16?_exact (pre : List Nat) (n : Nat) (post : List Nat)
    (h : n < 2 ^ 16) :
    readU16? (pre ++ u16BE n ++ post) pre.length = some n := by
  unfold readU16?
  have h2 : (2 : Nat) = (u16BE n).length := rfl
  rw [h2, readBytes?_exact]
  show some (beNat (u16BE n)) = some n
  rw [beNat_u16BE n h]

theorem readU32?_exact (pre : List Nat) (n : Nat) (post : List Nat)
    (h : n < 2 ^ 32) :
    readU32? (pre ++ u32BE n ++ post) pre.length = some n := by
  unfold readU32?
  have h4 : (4 : Nat) = (u32BE n).length := rfl
  rw [h4, readBytes?_exact]
  show some (beNat (u32BE n)) = some n
  rw [beNat_u32BE n h]

theorem readU64?_exact (pre : List Nat) (n : Nat) (post : List Nat)
    (h : n < 2 ^ 64) :
    readU64? (pre ++ u64BE n ++ post) pre.length = some n := by
  unfold readU64?
  have h8 : (8 : Nat) = (u64BE n).length := rfl
  rw [h8, readBytes?_exact]
  show some (beNat (u64BE n)) = some n
  rw [beNat_u64BE n h]

/-- Error values of the embedded code. `mutableDataPack` is
`MutableDataPackError`, `dataPack` is `DataPackError`, `emptyMutablePack`
is `EmptyMutablePack`, `io` stands for a propagated `std::io::Error`,
`codec` for an lz4 decompression failure, `generic` for an `anyhow`
`format_err` message, `notFound` for the index's key-not-found error, and
`panic` models a `panic!`/`unimplemented!` abort (the code never returns
there). `fuelExhausted` is a modelling artifact of the unbounded
delta-chain loop (see `chainLoop`). -/
inductive Err where
  | mutableDataPack (msg : String)
  | dataPack (msg : String)
  | emptyMutablePack
  | io
  | codec
  | generic (msg : String)
  | notFound
  | panic (msg : String)
  | fuelExhausted
deriving DecidableEq

/-- Rust `types::Key`: a path (byte string) plus a 20-byte content id. -/
structure Key where
  path : List Nat
  hgid : List Nat
deriving DecidableEq

/-- Rust `datastore::Delta`: payload bytes, optional base key, own key. -/
structure Delta where
  data : List Nat
  base : Option Key
  key : Key
deriving DecidableEq

/-- Rust `datastore::Metadata`: optional flags and uncompressed size. -/
structure Metadata where
  flags : Option Nat
  size : Option Nat
deriving DecidableEq

/-- The all-zero 20-byte sentinel id (`HgId::null_id`), marking a full
text when used as a delta base. -/
def nullId : List Nat := List.replicate 20 0

/-- Modelled from the spec: the serialized items of a metadata block
(`Metadata::write` lives in datastore.rs, which is not under src/). Each
present field becomes one (key tag, 2-byte BE value length, value bytes)
item, flags first; tag 102 is the flags field (4-byte BE value), tag 115
the size field (8-byte BE value). -/
def metaItems (m : Metadata) : List Nat :=
  (match m.flags with
   | some f => 102 :: (u16BE 4 ++ u32BE f)
   | none => []) ++
  (match m.size with
   | some s => 115 :: (u16BE 8 ++ u64BE s)
   | none => [])

/-- Modelled from the spec: `Metadata::write` (datastore.rs, not under
src/). The pack-format doc comment in datapack.rs documents the version-1
metadata block as a 4-byte BE list length followed by the items. -/
def Metadata.write (m : Metadata) : List Nat :=
  u32BE (metaItems m).length ++ metaItems m

/-- Modelled from the spec: one step of the item-parsing loop of
`Metadata::read` (datastore.rs, not under src/): given the bytes after a
key tag, read the 2-byte BE value length and the value, interpret the tag
(102 = flags, 115 = size; anything else is a parse failure, as is a
truncated item) and return the updated metadata plus the remaining
bytes. -/
def readMetaItem (rest : List Nat) (keyTag : Nat) (m : Metadata) :
    Option (Metadata × List Nat) :=
  match readU16? rest 0 with
  | none => none
  | some vlen =>
    if 2 + vlen ≤ rest.length then
      match (if keyTag = 102 then
          some (Metadata.mk (some (beNat ((rest.drop 2).take vlen))) m.size)
        else if keyTag = 115 then
          some (Metadata.mk m.flags (some (beNat ((rest.drop 2).take vlen))))
        else none) with
      | none => none
      | some m2 => some (m2, rest.drop (2 + vlen))
    else none

/-- The item loop with explicit fuel (each step consumes at least one
byte, so fuel = length of the block always suffices; the fuel-exhausted
`none` on a nonempty list is unreachable from the wrapper below). -/
def readMetaItemsF : Nat → List Nat → Metadata → Option Metadata
  | _, [], m => some m
  | 0, _ :: _, _ => none
  | fuel + 1, keyTag :: rest, m =>
    match readMetaItem rest keyTag m with
    | none => none
    | some (m2, rest2) => readMetaItemsF fuel rest2 m2

/-- Modelled from the spec: the item-parsing loop of `Metadata::read`
(datastore.rs, not under src/): consume (key tag, u16 BE value length,
value bytes) items until the block is exhausted; an unknown tag or a
truncated item is a parse failure. -/
def readMetaItems (l : List Nat) (m : Metadata) : Option Metadata :=
  readMetaItemsF l.length l m

theorem readMetaItem_some_length (rest : List Nat) (keyTag : Nat)
    (m m2 : Metadata) (rest2 : List Nat)
    (h : readMetaItem rest keyTag m = some (m2, rest2)) :
    rest2.length ≤ rest.length := by
  rw [readMetaItem] at h
  split at h
  · cases h
  · split at h
    · split at h
      · cases h
      · cases h
        simp [List.length_drop]
    · cases h

theorem readMetaItemsF_congr (a : Nat) : ∀ (b : Nat) (l : List Nat)
    (m : Metadata), l.length ≤ a → l.length ≤ b →
    readMetaItemsF a l m = readMetaItemsF b l m := by
  induction a with
  | zero =>
    intro b l m ha hb
    cases l with
    | nil => cases b <;> rfl
    | cons k rest => simp at ha
  | succ a ih =>
    intro b l m ha hb
    cases l with
    | nil => cases b <;> rfl
    | cons k rest =>
      cases b with
      | zero => simp at hb
      | succ b' =>
        rw [readMetaItemsF, readMetaItemsF]
        cases hitem : readMetaItem rest k m with
        | none => rfl
        | some p =>
          obtain ⟨m2, rest2⟩ := p
          have hlen2 := readMetaItem_some_length rest k m m2 rest2 hitem
          simp only [List.length_cons] at ha hb
          exact ih b' rest2 m2 (by omega) (by omega)

/-- Modelled from the spec: `Metadata::read` (datastore.rs, not under
src/): a 4-byte BE block length, then the items; returns the metadata and
the position just past the block. -/
def Metadata.read (buf : List Nat) (p : Nat) : Except Err (Metadata × Nat) :=
  match readU32? buf p with
  | none => .error .io
  | some len =>
    match readBytes? buf (p + 4) len with
    | none => .error .io
    | some region =>
      match readMetaItems region (Metadata.mk none none) with
      | none => .error (.dataPack "invalid metadata")
      | some m => .ok (m, p + 4 + len)

/-- Rust `DataEntry` (datapack.rs): one parsed record. The lazily-decompressed
`data` cell is not part of the parse result; `compressed_data` is the raw
slice. -/
structure DataEntry where
  offset : Nat
  filename : List Nat
  node : List Nat
  delta_base : List Nat
  compressed_data : List Nat
  metadata : Metadata
  next_offset : Nat
deriving DecidableEq

/-- Rust `DataEntry::new` (datapack.rs): parse one record of `buf` starting at
`offset`. Cursor reads that run off the end are `io` errors; the
filename/data slices whose declared length runs past the end fail with the
descriptive `DataPackError`; version-1 records then carry a metadata
block. -/
def DataEntry.new (buf : List Nat) (offset : Nat) (version : Nat) :
    Except Err DataEntry :=
  match readU16? buf offset with
  | none => .error .io
  | some filename_len =>
    match sliceGet buf (offset + 2) (offset + 2 + filename_len) with
    | none => .error (.dataPack "buffer not long enough to read filename")
    | some filename =>
      let p := offset + 2 + filename_len
      match readBytes? buf p 20 with
      | none => .error .io
      | some node =>
        match readBytes? buf (p + 20) 20 with
        | none => .error .io
        | some delta_base =>
          match readU64? buf (p + 40) with
          | none => .error .io
          | some delta_len =>
            match sliceGet buf (p + 48) (p + 48 + delta_len) with
            | none => .error (.dataPack "buffer not long enough to read data")
            | some compressed_data =>
              if version = 1 then
                match Metadata.read buf (p + 48 + delta_len) with
                | .error e => .error e
                | .ok (md, q) =>
                  .ok ⟨offset, filename, node, delta_base, compressed_data,
                       md, q⟩
              else
                .ok ⟨offset, filename, node, delta_base, compressed_data,
                     Metadata.mk none none, p + 48 + delta_len⟩

/-- Rust `DataPackVersion`. -/
inductive DataPackVersion where
  | Zero
  | One
deriving DecidableEq

/-- The `u8` a `DataPackVersion` converts into. -/
def DataPackVersion.toNat : DataPackVersion → Nat
  | .Zero => 0
  | .One => 1

/-- Rust `dataindex::DeltaLocation`: where one serialized record lives in the
staging file. -/
structure DeltaLocation where
  delta_base : Option (List Nat)
  offset : Nat
  size : Nat
deriving DecidableEq

/-- Rust `MutableDataPackInner`: the writer state guarded by the facade's
mutex. `fileBytes` is the byte content of the staging data file (the
buffered `PackWriter` is invisible at this level), `mem_index` the
in-memory index (a `HashMap`, modelled as an insertion list whose lookup
takes the most recent binding), and `hasherInput` the bytes fed to the
running sha1 hasher so far. -/
structure MutableDataPackInner where
  dir : String
  fileBytes : List Nat
  mem_index : List (List Nat × DeltaLocation)
  hasherInput : List Nat
deriving DecidableEq

/-- Rust `HashMap::get` on the insertion-list model of `mem_index`: the most
recent binding for an id wins, matching `HashMap::insert` overwrite
semantics. -/
def memLookup : List (List Nat × DeltaLocation) → List Nat →
    Option DeltaLocation
  | [], _ => none
  | (h, loc) :: rest, hgid => if h = hgid then some loc else memLookup rest hgid

/-- Rust `MutableDataPackInner::new`: rejects version-0 packs, opens a staging
file, writes the 1-byte version header and seeds the running hash with the
same byte. (The `is_dir` filesystem check is outside this model.) -/
def MutableDataPackInner.new (dir : String) (version : DataPackVersion) :
    Except Err MutableDataPackInner :=
  if version = DataPackVersion.Zero then
    .error (.generic "cannot create a v0 datapack")
  else
    .ok ⟨dir, [version.toNat], [], [version.toNat]⟩

/-- The delta-base id bytes `add` writes: the base's id, or the all-zero
sentinel for a full text. -/
def baseHgId : Option Key → List Nat
  | none => nullId
  | some k => k.hgid

/-- The record bytes `MutableDataPackInner::add` appends for one delta:
2-byte BE path length, path, own id, base id (or sentinel), 8-byte BE
compressed length, compressed payload, metadata block. -/
def serializeRecord (compress : List Nat → List Nat) (d : Delta)
    (m : Metadata) : List Nat :=
  u16BE d.key.path.length ++ d.key.path ++ d.key.hgid ++ baseHgId d.base ++
    u64BE (compress d.data).length ++ compress d.data ++ m.write

/-- The pure state update a successful `add` performs: append the record
to the staging file, feed the same bytes to the hasher, and insert the
`DeltaLocation` (offset taken before the write) into the in-memory
index. -/
def addState (compress : List Nat → List Nat) (st : MutableDataPackInner)
    (d : Delta) (m : Metadata) : MutableDataPackInner :=
  let buf := serializeRecord compress d m
  { st with
    fileBytes := st.fileBytes ++ buf,
    hasherInput := st.hasherInput ++ buf,
    mem_index := (d.key.hgid,
      ⟨d.base.map (fun k => k.hgid), st.fileBytes.length, buf.length⟩)
      :: st.mem_index }

/-- Rust `MutableDataPackInner::add`: rejects a path whose serialized length is
`u16::MAX` (65535) or more, otherwise performs `addState`. -/
def MutableDataPackInner.add (compress : List Nat → List Nat)
    (st : MutableDataPackInner) (d : Delta) (m : Metadata) :
    Except Err MutableDataPackInner :=
  if 65535 ≤ d.key.path.length then
    .error (.mutableDataPack "delta path is longer than 2^16")
  else .ok (addState compress st d m)

/-- The tail of `read_entry`: decompress the parsed entry's payload and
rebuild the `(Delta, Metadata)` pair. Per the spec, an all-zero stored
base id reconstructs as `base = none`; both the rebuilt key and the
rebuilt base reuse the queried key's path. -/
def rebuildDelta (decompress : List Nat → Option (List Nat)) (key : Key)
    (entry : DataEntry) : Except Err (Option (Delta × Metadata)) :=
  match decompress entry.compressed_data with
  | none => .error .codec
  | some raw =>
    .ok (some (⟨raw,
      if entry.delta_base = nullId then none
      else some ⟨key.path, entry.delta_base⟩,
      ⟨key.path, entry.node⟩⟩, entry.metadata))

/-- The body of `read_entry` once the in-memory index produced a
location: read exactly `size` bytes at `offset` from the staging file (an
`io` error if the file is too short), parse with `DataEntry::new` at
offset 0, version 1, and rebuild the delta. -/
def readEntryAt (decompress : List Nat → Option (List Nat))
    (st : MutableDataPackInner) (key : Key) (loc : DeltaLocation) :
    Except Err (Option (Delta × Metadata)) :=
  if loc.offset + loc.size ≤ st.fileBytes.length then
    match DataEntry.new ((st.fileBytes.drop loc.offset).take loc.size) 0 1 with
    | .error e => .error e
    | .ok entry => rebuildDelta decompress key entry
  else .error .io

/-- Rust `MutableDataPackInner::read_entry`: look the id up in the in-memory
index (`none` result if absent), then read and re-parse the record via
`readEntryAt`. -/
def MutableDataPackInner.read_entry (decompress : List Nat → Option (List Nat))
    (st : MutableDataPackInner) (key : Key) :
    Except Err (Option (Delta × Metadata)) :=
  match memLookup st.mem_index key.hgid with
  | none => .ok none
  | some loc => readEntryAt decompress st key loc

/-- Rust `MutableDataPackInner::build_files`: fails with `EmptyMutablePack` on
an empty in-memory index; otherwise produces the data file and the
content-addressed base path `dir.join(hex digest of the hasher input)`.
(The index-file bytes, `DataIndex::write` of dataindex.rs, are not under
src/ and not needed by any claim; the model returns the data-file bytes
and the base path.) -/
def MutableDataPackInner.build_files (hexdigest : List Nat → String)
    (st : MutableDataPackInner) : Except Err (List Nat × String) :=
  if st.mem_index.isEmpty then .error .emptyMutablePack
  else .ok (st.fileBytes, st.dir ++ "/" ++ hexdigest st.hasherInput)

/-- Modelled from the spec: `MutablePack::close_pack` (mutablepack.rs, not
under src/): run `build_files`, turn the `EmptyMutablePack` error into the
`none` result, rename the staging files to the returned base path and
report it. -/
def close_pack (hexdigest : List Nat → String) (st : MutableDataPackInner) :
    Except Err (Option String) :=
  match MutableDataPackInner.build_files hexdigest st with
  | .error .emptyMutablePack => .ok none
  | .error e => .error e
  | .ok (_, path) => .ok (some path)

/-- Rust `MutableDataPack::flush` (publish): swap a fresh inner state in, close
the detached old one; returns the published base path (if any) and the
fresh state the writer continues with. -/
def MutableDataPack.flush (hexdigest : List Nat → String)
    (st : MutableDataPackInner) :
    Except Err (Option String × MutableDataPackInner) :=
  match MutableDataPackInner.new st.dir DataPackVersion.One with
  | .error e => .error e
  | .ok fresh =>
    match close_pack hexdigest st with
    | .error e => .error e
    | .ok res => .ok (res, fresh)

/-- Rust `MutableDataPack::get`: raw full-content get is unsupported and fails
with an explicit error for every key. -/
def MutableDataPack.get (_st : MutableDataPackInner) (_key : Key) :
    Except Err (Option (List Nat)) :=
  .error (.mutableDataPack "DataPack doesn't support raw get(), only getdeltachain")

/-- Rust `MutableDataPack::get_delta`: `read_entry` projected to the delta. -/
def MutableDataPack.get_delta (decompress : List Nat → Option (List Nat))
    (st : MutableDataPackInner) (key : Key) : Except Err (Option Delta) :=
  match MutableDataPackInner.read_entry decompress st key with
  | .error e => .error e
  | .ok none => .ok none
  | .ok (some (d, _)) => .ok (some d)

/-- Rust `MutableDataPack::get_meta`: `read_entry` projected to the metadata. -/
def MutableDataPack.get_meta (decompress : List Nat → Option (List Nat))
    (st : MutableDataPackInner) (key : Key) : Except Err (Option Metadata) :=
  match MutableDataPackInner.read_entry decompress st key with
  | .error e => .error e
  | .ok none => .ok none
  | .ok (some (_, m)) => .ok (some m)

/-- The `while let` loop of `MutableDataPack::get_delta_chain`: follow
base keys, appending each found delta; a found-nothing or an error ends
the loop with `none`/the error if no delta was collected yet and with the
partial chain otherwise. The Rust loop has no iteration bound (it diverges
on a cyclic pack); the model carries fuel and returns the artificial
`Err.fuelExhausted` if the bound is hit — `get_delta_chain` passes fuel
that suffices for every terminating run, since each successful lookup
consumes a distinct index entry. -/
def chainLoop (decompress : List Nat → Option (List Nat))
    (st : MutableDataPackInner) :
    Nat → Option Key → List Delta → Except Err (Option (List Delta))
  | _, none, chain => .ok (some chain)
  | 0, some _, _ => .error .fuelExhausted
  | fuel + 1, some k, chain =>
    match MutableDataPackInner.read_entry decompress st k with
    | .ok (some (d, _)) => chainLoop decompress st fuel d.base (chain ++ [d])
    | .ok none => if chain.isEmpty then .ok none else .ok (some chain)
    | .error e => if chain.isEmpty then .error e else .ok (some chain)

/-- Rust `MutableDataPack::get_delta_chain`. -/
def MutableDataPack.get_delta_chain (decompress : List Nat → Option (List Nat))
    (st : MutableDataPackInner) (key : Key) :
    Except Err (Option (List Delta)) :=
  chainLoop decompress st (st.mem_index.length + 1) (some key) []

/-- Rust `types::StoreKey`: either an hgid-based key or a content hash. -/
inductive StoreKey where
  | hgid (k : Key)
  | content (id : List Nat)
deriving DecidableEq

/-- Rust `LocalStore::get_missing` for `MutableDataPack`: keep the input keys
whose id is not in the in-memory index; a `Content` key is always kept. -/
def MutableDataPack.get_missing (st : MutableDataPackInner)
    (keys : List StoreKey) : List StoreKey :=
  keys.filter (fun k => match k with
    | .hgid key => (memLookup st.mem_index key.hgid).isNone
    | .content _ => true)

/-- A sequence of `add` calls against a writer state. -/
def addAll (compress : List Nat → List Nat) :
    List (Delta × Metadata) → MutableDataPackInner →
    Except Err MutableDataPackInner
  | [], st => .ok st
  | (d, m) :: rest, st =>
    match MutableDataPackInner.add compress st d m with
    | .error e => .error e
    | .ok st2 => addAll compress rest st2

namespace V0

/-- Rust `key::Key` of the original revisionstore crate (key.rs is not under
src/; fields per its use in datapack.rs): a name plus a 20-byte node. -/
structure Key where
  name : List Nat
  node : List Nat
deriving DecidableEq

/-- Rust `dataindex::IndexEntry` of the original crate: node, delta-base index
location (-1 = none), pack offset and size. -/
structure IndexEntry where
  node : List Nat
  delta_base_offset : Int
  pack_entry_offset : Nat
  pack_entry_size : Nat
deriving DecidableEq

/-- Modelled from the spec: `dataindex::DataIndex` (dataindex.rs, not
under src/): the sorted, fanout-accelerated index, modelled by its list of
entries. -/
structure DataIndex where
  entries : List IndexEntry
deriving DecidableEq

/-- Modelled from the spec: `DataIndex::get_entry` — look a node up in
the index; fails with the not-found error if absent. -/
def DataIndex.get_entry (idx : DataIndex) (node : List Nat) :
    Except Err IndexEntry :=
  match idx.entries.find? (fun e => e.node == node) with
  | none => .error .notFound
  | some e => .ok e

/-- Rust `DataPack` (datapack.rs): a memory-mapped published pack plus its
index. -/
structure DataPack where
  mmap : List Nat
  version : Nat
  index : DataIndex
deriving DecidableEq

/-- Rust `DataPack::read_entry`: parse one record of the mapped bytes. -/
def DataPack.read_entry (dp : DataPack) (offset : Nat) :
    Except Err DataEntry :=
  DataEntry.new dp.mmap offset dp.version

/-- Rust `DataStore::get` for `DataPack` (datapack.rs): the body is
`unimplemented!()` — the call panics; it never returns content bytes. -/
def DataPack.get (_dp : DataPack) (_key : Key) : Except Err (List Nat) :=
  .error (.panic "not implemented")

/-- Rust `DataStore::get_missing` for `DataPack`: keep the input keys whose
node the index lookup fails to find. -/
def DataPack.get_missing (dp : DataPack) (keys : List Key) : List Key :=
  keys.filter (fun k => match dp.index.get_entry k.node with
    | .error _ => true
    | .ok _ => false)

end V0

theorem readMetaItems_nil (m : Metadata) : readMetaItems [] m = some m :=
  rfl

theorem readMetaItems_flags_cons (f : Nat) (hf : f < 2 ^ 32)
    (rest : List Nat) (m : Metadata) :
    readMetaItems (102 :: (u16BE 4 ++ (u32BE f ++ rest))) m =
      readMetaItems rest (Metadata.mk (some f) m.size) := by
  have h1 : readU16? (u16BE 4 ++ (u32BE f ++ rest)) 0 = some 4 := by
    simpa using readU16?_exact [] 4 (u32BE f ++ rest) (by norm_num)
  have hlen : 2 + 4 ≤ (u16BE 4 ++ (u32BE f ++ rest)).length := by
    simp [u16BE, u32BE]
  have hdrop2 : (u16BE 4 ++ (u32BE f ++ rest)).drop 2 = u32BE f ++ rest :=
    List.drop_left' (u16BE_length 4)
  have htake : (u32BE f ++ rest).take 4 = u32BE f :=
    List.take_left' (u32BE_length f)
  have hdrop6 : (u16BE 4 ++ (u32BE f ++ rest)).drop (2 + 4) = rest := by
    rw [← List.append_assoc]
    apply List.drop_left'
    simp [u16BE, u32BE]
  have hitem : readMetaItem (u16BE 4 ++ (u32BE f ++ rest)) 102 m =
      some (Metadata.mk (some f) m.size, rest) := by
    rw [readMetaItem, h1]
    simp only [if_pos hlen, hdrop2, htake, hdrop6, beNat_u32BE f hf]
    simp
  show readMetaItemsF (102 :: (u16BE 4 ++ (u32BE f ++ rest))).length
    (102 :: (u16BE 4 ++ (u32BE f ++ rest))) m = _
  rw [List.length_cons, readMetaItemsF, hitem]
  exact readMetaItemsF_congr (u16BE 4 ++ (u32BE f ++ rest)).length
    rest.length rest (Metadata.mk (some f) m.size)
    (by simp only [List.length_append, u16BE_length, u32BE_length]; omega)
    (le_refl _)

theorem readMetaItems_size_cons (s : Nat) (hs : s < 2 ^ 64)
    (rest : List Nat) (m : Metadata) :
    readMetaItems (115 :: (u16BE 8 ++ (u64BE s ++ rest))) m =
      readMetaItems rest (Metadata.mk m.flags (some s)) := by
  have h1 : readU16? (u16BE 8 ++ (u64BE s ++ rest)) 0 = some 8 := by
    simpa using readU16?_exact [] 8 (u64BE s ++ rest) (by norm_num)
  have hlen : 2 + 8 ≤ (u16BE 8 ++ (u64BE s ++ rest)).length := by
    simp [u16BE, u64BE]
  have hdrop2 : (u16BE 8 ++ (u64BE s ++ rest)).drop 2 = u64BE s ++ rest :=
    List.drop_left' (u16BE_length 8)
  have htake : (u64BE s ++ rest).take 8 = u64BE s :=
    List.take_left' (u64BE_length s)
  have hdrop10 : (u16BE 8 ++ (u64BE s ++ rest)).drop (2 + 8) = rest := by
    rw [← List.append_assoc]
    apply List.drop_left'
    simp [u16BE, u64BE]
  have hitem : readMetaItem (u16BE 8 ++ (u64BE s ++ rest)) 115 m =
      some (Metadata.mk m.flags (some s), rest) := by
    rw [readMetaItem, h1]
    simp only [if_pos hlen, hdrop2, htake, hdrop10, beNat_u64BE s hs]
    simp
  show readMetaItemsF (115 :: (u16BE 8 ++ (u64BE s ++ rest))).length
    (115 :: (u16BE 8 ++ (u64BE s ++ rest))) m = _
  rw [List.length_cons, readMetaItemsF, hitem]
  exact readMetaItemsF_congr (u16BE 8 ++ (u64BE s ++ rest)).length
    rest.length rest (Metadata.mk m.flags (some s))
    (by simp only [List.length_append, u16BE_length, u64BE_length]; omega)
    (le_refl _)

/-- Bounds making a `Metadata` value serializable within its fixed-width
value encodings (`flags` is a `u32`, `size` a `u64` in the source). -/
def WFMeta (m : Metadata) : Prop :=
  (∀ f, m.flags = some f → f < 2 ^ 32) ∧ (∀ s, m.size = some s → s < 2 ^ 64)

theorem readMetaItems_write (m : Metadata) (h : WFMeta m) :
    readMetaItems (metaItems m) (Metadata.mk none none) = some m := by
  obtain ⟨hf, hs⟩ := h
  obtain ⟨mf, ms⟩ := m
  cases mf with
  | none =>
    cases ms with
    | none => simp [metaItems, readMetaItems_nil]
    | some s =>
      have hs8 := hs s rfl
      simp only [metaItems]
      simp only [List.nil_append, List.cons_append, List.append_assoc,
        List.append_nil]
      simpa [readMetaItems_nil] using
        readMetaItems_size_cons s hs8 [] (Metadata.mk none none)
  | some f =>
    have hf4 := hf f rfl
    cases ms with
    | none =>
      simp only [metaItems]
      simp only [List.cons_append, List.append_assoc, List.append_nil]
      simpa [readMetaItems_nil] using
        readMetaItems_flags_cons f hf4 [] (Metadata.mk none none)
    | some s =>
      have hs8 := hs s rfl
      simp only [metaItems]
      simp only [List.cons_append, List.append_assoc]
      rw [readMetaItems_flags_cons f hf4
        (115 :: (u16BE 8 ++ u64BE s)) (Metadata.mk none none)]
      simpa [readMetaItems_nil] using
        readMetaItems_size_cons s hs8 [] (Metadata.mk (some f) none)

theorem metaItems_length_le (m : Metadata) : (metaItems m).length ≤ 18 := by
  obtain ⟨mf, ms⟩ := m
  cases mf <;> cases ms <;> simp [metaItems, u16BE, u32BE, u64BE]

theorem Metadata.read_write (m : Metadata) (h : WFMeta m)
    (pre post : List Nat) :
    Metadata.read (pre ++ (m.write ++ post)) pre.length =
      .ok (m, pre.length + 4 + (metaItems m).length) := by
  have hlen : (metaItems m).length < 2 ^ 32 := by
    have := metaItems_length_le m
    omega
  have e1 : readU32? (pre ++ (m.write ++ post)) pre.length =
      some (metaItems m).length := by
    have h := readU32?_exact pre (metaItems m).length (metaItems m ++ post)
      hlen
    simpa [Metadata.write, List.append_assoc] using h
  have e2 : readBytes? (pre ++ (m.write ++ post)) (pre.length + 4)
      (metaItems m).length = some (metaItems m) := by
    have h := readBytes?_exact (pre ++ u32BE (metaItems m).length)
      (metaItems m) post
    simpa [Metadata.write, List.append_assoc, List.length_append,
      u32BE_length] using h
  simp only [Metadata.read, e1, e2, readMetaItems_write m h]

theorem readU16?_at (pre : List Nat) (n : Nat) (post : List Nat) (p : Nat)
    (hp : p = pre.length) (h : n < 2 ^ 16) :
    readU16? (pre ++ u16BE n ++ post) p = some n := by
  subst hp
  exact readU16?_exact pre n post h

theorem readU64?_at (pre : List Nat) (n : Nat) (post : List Nat) (p : Nat)
    (hp : p = pre.length) (h : n < 2 ^ 64) :
    readU64? (pre ++ u64BE n ++ post) p = some n := by
  subst hp
  exact readU64?_exact pre n post h

theorem readBytes?_at (pre mid post : List Nat) (p n : Nat)
    (hp : p = pre.length) (hn : n = mid.length) :
    readBytes? (pre ++ mid ++ post) p n = some mid := by
  subst hp
  subst hn
  exact readBytes?_exact pre mid post

theorem sliceGet_at (pre mid post : List Nat) (a b : Nat)
    (ha : a = pre.length) (hb : b = pre.length + mid.length) :
    sliceGet (pre ++ mid ++ post) a b = some mid := by
  subst ha
  subst hb
  exact sliceGet_exact pre mid post

theorem Metadata.read_write_at (m : Metadata) (h : WFMeta m)
    (pre post : List Nat) (p q : Nat) (hp : p = pre.length)
    (hq : q = p + 4 + (metaItems m).length) :
    Metadata.read (pre ++ (m.write ++ post)) p = .ok (m, q) := by
  subst hp
  subst hq
  exact Metadata.read_write m h pre post

/-- Well-formedness of one `add` call, mirroring the Rust surface types:
the path is below the `u16::MAX` limit enforced by `add`, ids are 20
bytes, a present base id is not the all-zero sentinel, the compressed
payload length fits a `u64`, and the metadata values fit their encodings. -/
def WFAdd (compress : List Nat → List Nat) (d : Delta) (m : Metadata) :
    Prop :=
  d.key.path.length < 65535 ∧
  d.key.hgid.length = 20 ∧
  (∀ bk, d.base = some bk → bk.hgid.length = 20 ∧ bk.hgid ≠ nullId) ∧
  (compress d.data).length < 2 ^ 64 ∧
  WFMeta m

theorem baseHgId_length (d : Delta)
    (hb : ∀ bk, d.base = some bk → bk.hgid.length = 20 ∧ bk.hgid ≠ nullId) :
    (baseHgId d.base).length = 20 := by
  cases hd : d.base with
  | none => simp [baseHgId, nullId]
  | some bk => simpa [baseHgId] using (hb bk hd).1

theorem DataEntry.new_serializeRecord (c : List Nat → List Nat) (d : Delta)
    (m : Metadata)
    (hp : d.key.path.length < 65535)
    (hk : d.key.hgid.length = 20)
    (hb : (baseHgId d.base).length = 20)
    (hc : (c d.data).length < 2 ^ 64)
    (hm : WFMeta m) :
    DataEntry.new (serializeRecord c d m) 0 1 =
      .ok ⟨0, d.key.path, d.key.hgid, baseHgId d.base, c d.data, m,
        2 + d.key.path.length + 48 + (c d.data).length + 4 +
          (metaItems m).length⟩ := by
  have hp16 : d.key.path.length < 2 ^ 16 := by omega
  have e1 : readU16? (serializeRecord c d m) 0 = some d.key.path.length := by
    rw [show serializeRecord c d m =
      [] ++ u16BE d.key.path.length ++ (d.key.path ++ (d.key.hgid ++
        (baseHgId d.base ++ (u64BE (c d.data).length ++
          (c d.data ++ m.write))))) from by
      simp [serializeRecord, List.append_assoc]]
    exact readU16?_at [] d.key.path.length _ 0 rfl hp16
  have e2 : sliceGet (serializeRecord c d m) (0 + 2)
      (0 + 2 + d.key.path.length) = some d.key.path := by
    rw [show serializeRecord c d m =
      u16BE d.key.path.length ++ d.key.path ++ (d.key.hgid ++
        (baseHgId d.base ++ (u64BE (c d.data).length ++
          (c d.data ++ m.write)))) from by
      simp [serializeRecord, List.append_assoc]]
    exact sliceGet_at (u16BE d.key.path.length) d.key.path _ _ _
      (by simp [u16BE_length]) (by simp [u16BE_length])
  have e3 : readBytes? (serializeRecord c d m) (0 + 2 + d.key.path.length)
      20 = some d.key.hgid := by
    rw [show serializeRecord c d m =
      (u16BE d.key.path.length ++ d.key.path) ++ d.key.hgid ++
        (baseHgId d.base ++ (u64BE (c d.data).length ++
          (c d.data ++ m.write))) from by
      simp [serializeRecord, List.append_assoc]]
    exact readBytes?_at _ _ _ _ _
      (by simp only [List.length_append, u16BE_length]) hk.symm
  have e4 : readBytes? (serializeRecord c d m)
      (0 + 2 + d.key.path.length + 20) 20 = some (baseHgId d.base) := by
    rw [show serializeRecord c d m =
      ((u16BE d.key.path.length ++ d.key.path) ++ d.key.hgid) ++
        baseHgId d.base ++ (u64BE (c d.data).length ++
          (c d.data ++ m.write)) from by
      simp [serializeRecord, List.append_assoc]]
    exact readBytes?_at _ _ _ _ _
      (by simp only [List.length_append, u16BE_length, hk]) hb.symm
  have e5 : readU64? (serializeRecord c d m)
      (0 + 2 + d.key.path.length + 40) = some (c d.data).length := by
    rw [show serializeRecord c d m =
      (((u16BE d.key.path.length ++ d.key.path) ++ d.key.hgid) ++
        baseHgId d.base) ++ u64BE (c d.data).length ++
          (c d.data ++ m.write) from by
      simp [serializeRecord, List.append_assoc]]
    exact readU64?_at _ _ _ _
      (by simp only [List.length_append, u16BE_length, hk, hb]) hc
  have e6 : sliceGet (serializeRecord c d m)
      (0 + 2 + d.key.path.length + 48)
      (0 + 2 + d.key.path.length + 48 + (c d.data).length) =
      some (c d.data) := by
    rw [show serializeRecord c d m =
      ((((u16BE d.key.path.length ++ d.key.path) ++ d.key.hgid) ++
        baseHgId d.base) ++ u64BE (c d.data).length) ++ c d.data ++
          m.write from by
      simp [serializeRecord, List.append_assoc]]
    exact sliceGet_at _ _ _ _ _
      (by simp only [List.length_append, u16BE_length, u64BE_length, hk,
        hb])
      (by simp only [List.length_append, u16BE_length, u64BE_length, hk,
        hb])
  have e7 : Metadata.read (serializeRecord c d m)
      (0 + 2 + d.key.path.length + 48 + (c d.data).length) =
      .ok (m, 0 + 2 + d.key.path.length + 48 + (c d.data).length + 4 +
        (metaItems m).length) := by
    rw [show serializeRecord c d m =
      (((((u16BE d.key.path.length ++ d.key.path) ++ d.key.hgid) ++
        baseHgId d.base) ++ u64BE (c d.data).length) ++ c d.data) ++
          (m.write ++ []) from by
      simp [serializeRecord, List.append_assoc]]
    exact Metadata.read_write_at m hm _ [] _ _
      (by simp only [List.length_append, u16BE_length, u64BE_length, hk,
        hb]) rfl
  simp only [DataEntry.new, e1, e2, e3, e4, e5, e6, e7]
  simp

/-- The delta value `read_entry` rebuilds for an entry that was added as
`d` and is queried under path `qpath`: data and ids round-trip, but both
the rebuilt key and the rebuilt base carry the queried path. -/
def readBack (d : Delta) (qpath : List Nat) : Delta :=
  ⟨d.data, d.base.map (fun k => Key.mk qpath k.hgid), Key.mk qpath d.key.hgid⟩

theorem read_entry_lookup_none (decompress : List Nat → Option (List Nat))
    (st : MutableDataPackInner) (q : Key)
    (hl : memLookup st.mem_index q.hgid = none) :
    MutableDataPackInner.read_entry decompress st q = .ok none := by
  rw [MutableDataPackInner.read_entry, hl]

theorem read_entry_lookup_some (decompress : List Nat → Option (List Nat))
    (st : MutableDataPackInner) (q : Key) (loc : DeltaLocation)
    (hl : memLookup st.mem_index q.hgid = some loc) :
    MutableDataPackInner.read_entry decompress st q =
      readEntryAt decompress st q loc := by
  rw [MutableDataPackInner.read_entry, hl]

theorem readEntryAt_parse_ok (decompress : List Nat → Option (List Nat))
    (st : MutableDataPackInner) (q : Key) (loc : DeltaLocation)
    (entry : DataEntry)
    (hle : loc.offset + loc.size ≤ st.fileBytes.length)
    (hnew : DataEntry.new ((st.fileBytes.drop loc.offset).take loc.size) 0 1 =
      .ok entry) :
    readEntryAt decompress st q loc = rebuildDelta decompress q entry := by
  rw [readEntryAt, if_pos hle, hnew]

theorem rebuildDelta_some (decompress : List Nat → Option (List Nat))
    (q : Key) (entry : DataEntry) (raw : List Nat)
    (hdec : decompress entry.compressed_data = some raw) :
    rebuildDelta decompress q entry =
      .ok (some (⟨raw,
        if entry.delta_base = nullId then none
        else some ⟨q.path, entry.delta_base⟩,
        ⟨q.path, entry.node⟩⟩, entry.metadata)) := by
  rw [rebuildDelta, hdec]

set_option maxHeartbeats 1000000 in
theorem read_entry_addState (c : List Nat → List Nat)
    (decompress : List Nat → Option (List Nat)) (st : MutableDataPackInner)
    (d : Delta) (m : Metadata) (qpath : List Nat)
    (h : WFAdd c d m) (hdec : decompress (c d.data) = some d.data) :
    MutableDataPackInner.read_entry decompress (addState c st d m)
      (Key.mk qpath d.key.hgid) = .ok (some (readBack d qpath, m)) := by
  obtain ⟨hp, hk, hbase, hc, hm⟩ := h
  have hb := baseHgId_length d hbase
  have hparse := DataEntry.new_serializeRecord c d m hp hk hb hc hm
  have hl : memLookup (addState c st d m).mem_index
      (Key.mk qpath d.key.hgid).hgid =
      some ⟨d.base.map (fun k => k.hgid), st.fileBytes.length,
        (serializeRecord c d m).length⟩ := by
    simp [addState, memLookup]
  rw [read_entry_lookup_some _ _ _ _ hl]
  have hslice : ((addState c st d m).fileBytes.drop st.fileBytes.length).take
      (serializeRecord c d m).length = serializeRecord c d m := by
    show ((st.fileBytes ++ serializeRecord c d m).drop st.fileBytes.length).take
      (serializeRecord c d m).length = serializeRecord c d m
    rw [List.drop_left]
    exact List.take_length (serializeRecord c d m)
  have hnew : DataEntry.new
      (((addState c st d m).fileBytes.drop st.fileBytes.length).take
        (serializeRecord c d m).length) 0 1 =
      .ok ⟨0, d.key.path, d.key.hgid, baseHgId d.base, c d.data, m,
        2 + d.key.path.length + 48 + (c d.data).length + 4 +
          (metaItems m).length⟩ := by
    rw [hslice, hparse]
  have hle : st.fileBytes.length + (serializeRecord c d m).length ≤
      (addState c st d m).fileBytes.length := by
    show _ ≤ (st.fileBytes ++ serializeRecord c d m).length
    simp [List.length_append]
  rw [readEntryAt_parse_ok decompress (addState c st d m) _ _ _ hle hnew]
  rw [rebuildDelta_some decompress _ _ d.data hdec]
  cases hbd : d.base with
  | none =>
    simp [readBack, baseHgId, hbd]
  | some bk =>
    have hnn : bk.hgid ≠ nullId := (hbase bk hbd).2
    simp [readBack, baseHgId, hbd, hnn]

/-- Index locations stay within the staging file; every state reachable
from a fresh writer satisfies this. -/
def stInv (st : MutableDataPackInner) : Prop :=
  ∀ hgid loc, (hgid, loc) ∈ st.mem_index →
    loc.offset + loc.size ≤ st.fileBytes.length

theorem memLookup_mem (idx : List (List Nat × DeltaLocation))
    (hgid : List Nat) (loc : DeltaLocation)
    (h : memLookup idx hgid = some loc) : (hgid, loc) ∈ idx := by
  induction idx with
  | nil => simp [memLookup] at h
  | cons p rest ih =>
    obtain ⟨h1, l1⟩ := p
    rw [memLookup] at h
    by_cases he : h1 = hgid
    · subst he
      rw [if_pos rfl] at h
      cases h
      exact List.mem_cons_self _ _
    · rw [if_neg he] at h
      exact List.mem_cons_of_mem _ (ih h)

theorem take_drop_append (l₁ l₂ : List Nat) (o s : Nat)
    (h : o + s ≤ l₁.length) :
    ((l₁ ++ l₂).drop o).take s = (l₁.drop o).take s := by
  rw [List.drop_append_of_le_length (by omega)]
  rw [List.take_append_of_le_length (by simp [List.length_drop]; omega)]

theorem readEntryAt_grow (c : List Nat → List Nat)
    (decompress : List Nat → Option (List Nat)) (st : MutableDataPackInner)
    (d : Delta) (m : Metadata) (q : Key) (loc : DeltaLocation)
    (h : loc.offset + loc.size ≤ st.fileBytes.length) :
    readEntryAt decompress (addState c st d m) q loc =
      readEntryAt decompress st q loc := by
  have hgrow : ((addState c st d m).fileBytes.drop loc.offset).take loc.size =
      (st.fileBytes.drop loc.offset).take loc.size := by
    show ((st.fileBytes ++ serializeRecord c d m).drop loc.offset).take
      loc.size = (st.fileBytes.drop loc.offset).take loc.size
    exact take_drop_append _ _ _ _ h
  have hle2 : loc.offset + loc.size ≤ (addState c st d m).fileBytes.length := by
    show _ ≤ (st.fileBytes ++ serializeRecord c d m).length
    simp only [List.length_append]
    omega
  rw [readEntryAt, readEntryAt, if_pos h, if_pos hle2, hgrow]

theorem read_entry_addState_other (c : List Nat → List Nat)
    (decompress : List Nat → Option (List Nat)) (st : MutableDataPackInner)
    (d : Delta) (m : Metadata) (q : Key)
    (hne : q.hgid ≠ d.key.hgid) (hinv : stInv st) :
    MutableDataPackInner.read_entry decompress (addState c st d m) q =
      MutableDataPackInner.read_entry decompress st q := by
  have hlk : memLookup (addState c st d m).mem_index q.hgid =
      memLookup st.mem_index q.hgid := by
    show memLookup ((d.key.hgid,
      ⟨d.base.map (fun k => k.hgid), st.fileBytes.length,
        (serializeRecord c d m).length⟩) :: st.mem_index) q.hgid = _
    rw [memLookup, if_neg (fun hh => hne hh.symm)]
  cases hl : memLookup st.mem_index q.hgid with
  | none =>
    rw [read_entry_lookup_none _ _ _ (hlk.trans hl),
      read_entry_lookup_none _ _ _ hl]
  | some loc =>
    have hbound := hinv _ _ (memLookup_mem _ _ _ hl)
    rw [read_entry_lookup_some _ _ _ _ (hlk.trans hl),
      read_entry_lookup_some _ _ _ _ hl,
      readEntryAt_grow c decompress st d m q loc hbound]

theorem stInv_addState (c : List Nat → List Nat) (st : MutableDataPackInner)
    (d : Delta) (m : Metadata) (hinv : stInv st) :
    stInv (addState c st d m) := by
  intro hgid loc hmem
  simp only [addState, List.mem_cons] at hmem
  cases hmem with
  | inl he =>
    cases he
    simp [addState, List.length_append]
  | inr hmem =>
    have := hinv _ _ hmem
    simp only [addState, List.length_append]
    omega

theorem add_ok (c : List Nat → List Nat) (st : MutableDataPackInner)
    (d : Delta) (m : Metadata) (st2 : MutableDataPackInner)
    (h : MutableDataPackInner.add c st d m = .ok st2) :
    st2 = addState c st d m ∧ d.key.path.length < 65535 := by
  rw [MutableDataPackInner.add] at h
  by_cases hp : 65535 ≤ d.key.path.length
  · rw [if_pos hp] at h
    cases h
  · rw [if_neg hp] at h
    cases h
    exact ⟨rfl, by omega⟩

theorem stInv_addAll (c : List Nat → List Nat)
    (l : List (Delta × Metadata)) (st st2 : MutableDataPackInner)
    (h : addAll c l st = .ok st2) (hinv : stInv st) : stInv st2 := by
  induction l generalizing st with
  | nil =>
    rw [addAll] at h
    cases h
    exact hinv
  | cons p rest ih =>
    obtain ⟨d, m⟩ := p
    rw [addAll] at h
    cases hadd : MutableDataPackInner.add c st d m with
    | error e => rw [hadd] at h; cases h
    | ok st1 =>
      rw [hadd] at h
      obtain ⟨heq, -⟩ := add_ok c st d m st1 hadd
      subst heq
      exact ih _ h (stInv_addState c st d m hinv)

theorem read_entry_addAll_other (c : List Nat → List Nat)
    (decompress : List Nat → Option (List Nat))
    (l : List (Delta × Metadata)) (st st2 : MutableDataPackInner) (q : Key)
    (h : addAll c l st = .ok st2)
    (hq : ∀ p ∈ l, p.1.key.hgid ≠ q.hgid) (hinv : stInv st) :
    MutableDataPackInner.read_entry decompress st2 q =
      MutableDataPackInner.read_entry decompress st q := by
  induction l generalizing st with
  | nil =>
    rw [addAll] at h
    cases h
    rfl
  | cons p rest ih =>
    obtain ⟨d, m⟩ := p
    rw [addAll] at h
    cases hadd : MutableDataPackInner.add c st d m with
    | error e => rw [hadd] at h; cases h
    | ok st1 =>
      rw [hadd] at h
      obtain ⟨heq, -⟩ := add_ok c st d m st1 hadd
      subst heq
      have hstep := read_entry_addState_other c decompress st d m q
        (fun hh => hq (d, m) (List.mem_cons_self _ _) hh.symm) hinv
      rw [ih _ h (fun p hp => hq p (List.mem_cons_of_mem _ hp))
        (stInv_addState c st d m hinv), hstep]

theorem addAll_append (c : List Nat → List Nat)
    (l1 l2 : List (Delta × Metadata)) (st : MutableDataPackInner) :
    addAll c (l1 ++ l2) st =
      match addAll c l1 st with
      | .error e => .error e
      | .ok st1 => addAll c l2 st1 := by
  induction l1 generalizing st with
  | nil => rw [List.nil_append, addAll]
  | cons p rest ih =>
    obtain ⟨d, m⟩ := p
    rw [List.cons_append, addAll, addAll]
    cases MutableDataPackInner.add c st d m with
    | error e => rfl
    | ok st1 => exact ih st1

theorem read_entry_addAll_mem (c : List Nat → List Nat)
    (decompress : List Nat → Option (List Nat))
    (l1 l2 : List (Delta × Metadata)) (d : Delta) (m : Metadata)
    (st0 st : MutableDataPackInner) (hinv : stInv st0)
    (h : addAll c (l1 ++ (d, m) :: l2) st0 = .ok st)
    (hwf : WFAdd c d m) (hdec : decompress (c d.data) = some d.data)
    (hlast : ∀ p ∈ l2, p.1.key.hgid ≠ d.key.hgid) :
    MutableDataPackInner.read_entry decompress st d.key =
      .ok (some (readBack d d.key.path, m)) := by
  rw [addAll_append] at h
  cases h1 : addAll c l1 st0 with
  | error e => rw [h1] at h; cases h
  | ok st1 =>
    rw [h1] at h
    have h' : addAll c ((d, m) :: l2) st1 = .ok st := h
    rw [addAll] at h'
    cases h2 : MutableDataPackInner.add c st1 d m with
    | error e => rw [h2] at h'; cases h'
    | ok st2 =>
      rw [h2] at h'
      obtain ⟨heq, -⟩ := add_ok c st1 d m st2 h2
      subst heq
      have h'' : addAll c l2 (addState c st1 d m) = .ok st := h'
      have hinv1 : stInv st1 := stInv_addAll c l1 st0 st1 h1 hinv
      have hfrozen := read_entry_addAll_other c decompress l2
        (addState c st1 d m) st d.key h'' hlast
        (stInv_addState c st1 d m hinv1)
      rw [hfrozen]
      exact read_entry_addState c decompress st1 d m d.key.path hwf hdec

/-- The hasher has been fed exactly the bytes written to the staging
file. -/
def hasherOk (st : MutableDataPackInner) : Prop :=
  st.hasherInput = st.fileBytes

theorem hasherOk_addAll (c : List Nat → List Nat)
    (l : List (Delta × Metadata)) (st st2 : MutableDataPackInner)
    (h : addAll c l st = .ok st2) (hh : hasherOk st) : hasherOk st2 := by
  induction l generalizing st with
  | nil => rw [addAll] at h; cases h; exact hh
  | cons p rest ih =>
    obtain ⟨d, m⟩ := p
    rw [addAll] at h
    cases hadd : MutableDataPackInner.add c st d m with
    | error e => rw [hadd] at h; cases h
    | ok st1 =>
      rw [hadd] at h
      obtain ⟨heq, -⟩ := add_ok c st d m st1 hadd
      subst heq
      refine ih _ h ?_
      show (addState c st d m).hasherInput = (addState c st d m).fileBytes
      unfold hasherOk at hh
      simp [addState, hh]

theorem dir_addAll (c : List Nat → List Nat)
    (l : List (Delta × Metadata)) (st st2 : MutableDataPackInner)
    (h : addAll c l st = .ok st2) : st2.dir = st.dir := by
  induction l generalizing st with
  | nil => rw [addAll] at h; cases h; rfl
  | cons p rest ih =>
    obtain ⟨d, m⟩ := p
    rw [addAll] at h
    cases hadd : MutableDataPackInner.add c st d m with
    | error e => rw [hadd] at h; cases h
    | ok st1 =>
      rw [hadd] at h
      obtain ⟨heq, -⟩ := add_ok c st d m st1 hadd
      subst heq
      rw [ih _ h]
      rfl

theorem chainLoop_done (decompress : List Nat → Option (List Nat))
    (st : MutableDataPackInner) (fuel : Nat) (chain : List Delta) :
    chainLoop decompress st fuel none chain = .ok (some chain) := by
  cases fuel <;> rw [chainLoop]

theorem chainLoop_found (decompress : List Nat → Option (List Nat))
    (st : MutableDataPackInner) (fuel : Nat) (k : Key) (chain : List Delta)
    (d : Delta) (m : Metadata)
    (h : MutableDataPackInner.read_entry decompress st k = .ok (some (d, m))) :
    chainLoop decompress st (fuel + 1) (some k) chain =
      chainLoop decompress st fuel d.base (chain ++ [d]) := by
  rw [chainLoop, h]

theorem chainLoop_stop_none (decompress : List Nat → Option (List Nat))
    (st : MutableDataPackInner) (fuel : Nat) (k : Key) (chain : List Delta)
    (h : MutableDataPackInner.read_entry decompress st k = .ok none) :
    chainLoop decompress st (fuel + 1) (some k) chain =
      if chain.isEmpty then .ok none else .ok (some chain) := by
  rw [chainLoop, h]

theorem chainLoop_stop_error (decompress : List Nat → Option (List Nat))
    (st : MutableDataPackInner) (fuel : Nat) (k : Key) (chain : List Delta)
    (e : Err)
    (h : MutableDataPackInner.read_entry decompress st k = .error e) :
    chainLoop decompress st (fuel + 1) (some k) chain =
      if chain.isEmpty then .error e else .ok (some chain) := by
  rw [chainLoop, h]

theorem add_eq (c : List Nat → List Nat) (st : MutableDataPackInner)
    (d : Delta) (m : Metadata) (h : d.key.path.length < 65535) :
    MutableDataPackInner.add c st d m = .ok (addState c st d m) := by
  rw [MutableDataPackInner.add, if_neg (by omega)]

theorem addAll_cons_ok (c : List Nat → List Nat) (st : MutableDataPackInner)
    (d : Delta) (m : Metadata) (rest : List (Delta × Metadata))
    (h : d.key.path.length < 65535) :
    addAll c ((d, m) :: rest) st = addAll c rest (addState c st d m) := by
  rw [addAll, add_eq c st d m h]

theorem get_delta_of_read (decompress : List Nat → Option (List Nat))
    (st : MutableDataPackInner) (k : Key) (d : Delta) (m : Metadata)
    (h : MutableDataPackInner.read_entry decompress st k = .ok (some (d, m))) :
    MutableDataPack.get_delta decompress st k = .ok (some d) := by
  rw [MutableDataPack.get_delta, h]

theorem get_meta_of_read (decompress : List Nat → Option (List Nat))
    (st : MutableDataPackInner) (k : Key) (d : Delta) (m : Metadata)
    (h : MutableDataPackInner.read_entry decompress st k = .ok (some (d, m))) :
    MutableDataPack.get_meta decompress st k = .ok (some m) := by
  rw [MutableDataPack.get_meta, h]

theorem stInv_fresh (dir : String) :
    stInv ⟨dir, [1], [], [1]⟩ := by
  intro hgid loc hmem
  exact absurd hmem (List.not_mem_nil _)

/-- The identity codec: a valid instantiation of the external
compress/decompress pair, used for concrete evaluations. -/
def idCompress : List Nat → List Nat := fun x => x

/-- The identity decompressor paired with `idCompress`. -/
def idDecompress : List Nat → Option (List Nat) := fun x => some x

/-- A concrete 20-byte id. -/
def id1 : List Nat := List.replicate 20 1

/-- A concrete 20-byte id. -/
def id2 : List Nat := List.replicate 20 2

/-- A concrete 20-byte id. -/
def id3 : List Nat := List.replicate 20 3

/-- C5. Empty publish: on a writer state whose in-memory index is empty,
the lower-level `build_files` fails with the `EmptyMutablePack` error,
the `close_pack` wrapper converts that error into a successful `none`
("nothing to publish", no files created), and `flush` returns `none`
together with a fresh empty writer state. -/
theorem c5_empty_publish (hexdigest : List Nat → String)
    (st : MutableDataPackInner) (h : st.mem_index = []) :
    MutableDataPackInner.build_files hexdigest st =
      .error .emptyMutablePack ∧
    close_pack hexdigest st = .ok none ∧
    MutableDataPack.flush hexdigest st = .ok (none, ⟨st.dir, [1], [], [1]⟩) := by
  have h1 : MutableDataPackInner.build_files hexdigest st =
      .error .emptyMutablePack := by
    rw [MutableDataPackInner.build_files, if_pos (by rw [h]; rfl)]
  have h2 : close_pack hexdigest st = .ok none := by
    rw [close_pack, h1]
  have h3 : MutableDataPackInner.new st.dir DataPackVersion.One =
      .ok ⟨st.dir, [1], [], [1]⟩ := rfl
  refine ⟨h1, h2, ?_⟩
  rw [MutableDataPack.flush, h3]
  show ((match close_pack hexdigest st with
    | Except.error e => Except.error e
    | Except.ok res =>
      Except.ok (res, (⟨st.dir, [1], [], [1]⟩ : MutableDataPackInner))) :
    Except Err (Option String × MutableDataPackInner)) =
    Except.ok (none, ⟨st.dir, [1], [], [1]⟩)
  rw [h2]

/-- C5 witness: a freshly constructed writer (zero `add` calls) publishes
as `none` and its direct `build_files` is the `EmptyMutablePack` error. -/
theorem c5_empty_publish_witness :
    MutableDataPackInner.build_files (fun _ => "h") ⟨"p", [1], [], [1]⟩ =
      Except.error Err.emptyMutablePack ∧
    close_pack (fun _ => "h") ⟨"p", [1], [], [1]⟩ = Except.ok none ∧
    MutableDataPack.flush (fun _ => "h") ⟨"p", [1], [], [1]⟩ =
      Except.ok (none, ⟨"p", [1], [], [1]⟩) :=
  c5_empty_publish (fun _ => "h") ⟨"p", [1], [], [1]⟩ rfl

/-- C6 counterexample: a delta whose path has exactly 65535 bytes — the
largest length representable in 16 bits — is rejected by `add` with the
path-too-long error, refuting the claim that a path of exactly the
maximum representable length succeeds (the code rejects any length `>=
u16::MAX`). -/
theorem c6_counterexample :
    MutableDataPackInner.add idCompress ⟨"p", [1], [], [1]⟩
      ⟨[], none, ⟨List.replicate 65535 0, id1⟩⟩ ⟨none, none⟩ =
      .error (.mutableDataPack "delta path is longer than 2^16") := by
  rw [MutableDataPackInner.add, if_pos (by rw [List.length_replicate])]

/-- C6 (amended): `add` succeeds exactly on paths of serialized length at
most 65534 bytes (`u16::MAX - 1`); a path of length 65535 (= `u16::MAX`)
or more fails with the path-too-long error. -/
theorem c6_boundary (c : List Nat → List Nat) (st : MutableDataPackInner)
    (d : Delta) (m : Metadata) :
    (d.key.path.length ≤ 65534 →
      MutableDataPackInner.add c st d m = .ok (addState c st d m)) ∧
    (65535 ≤ d.key.path.length →
      MutableDataPackInner.add c st d m =
        .error (.mutableDataPack "delta path is longer than 2^16")) := by
  constructor
  · intro h
    exact add_eq c st d m (by omega)
  · intro h
    rw [MutableDataPackInner.add, if_pos h]

/-- C6 witness: a path of exactly 65534 bytes is accepted, and one of
65535 bytes is rejected. -/
theorem c6_boundary_witness :
    MutableDataPackInner.add idCompress ⟨"p", [1], [], [1]⟩
      ⟨[], none, ⟨List.replicate 65534 7, id1⟩⟩ ⟨none, none⟩ =
      .ok (addState idCompress ⟨"p", [1], [], [1]⟩
        ⟨[], none, ⟨List.replicate 65534 7, id1⟩⟩ ⟨none, none⟩) ∧
    MutableDataPackInner.add idCompress ⟨"p", [1], [], [1]⟩
      ⟨[], none, ⟨List.replicate 65535 7, id1⟩⟩ ⟨none, none⟩ =
      .error (.mutableDataPack "delta path is longer than 2^16") :=
  ⟨(c6_boundary idCompress ⟨"p", [1], [], [1]⟩
      ⟨[], none, ⟨List.replicate 65534 7, id1⟩⟩ ⟨none, none⟩).1
     (by rw [List.length_replicate]),
   (c6_boundary idCompress ⟨"p", [1], [], [1]⟩
      ⟨[], none, ⟨List.replicate 65535 7, id1⟩⟩ ⟨none, none⟩).2
     (by rw [List.length_replicate])⟩

/-- C8 counterexample: the immutable reader's `get` is `unimplemented!()`
— it panics rather than returning the explicit unsupported-operation
error value the mutable facade returns, refuting the claim that both
surfaces fail with that error. -/
theorem c8_counterexample :
    V0.DataPack.get ⟨[1], 1, ⟨[]⟩⟩ ⟨[], id1⟩ =
      .error (.panic "not implemented") ∧
    (Err.panic "not implemented" ≠
      Err.mutableDataPack
        "DataPack doesn't support raw get(), only getdeltachain") := by
  exact ⟨rfl, by decide⟩

/-- C8 (amended): for every key, the mutable writer facade's raw `get`
fails with the explicit unsupported-operation error; the immutable
reader's `get` is unimplemented and panics (modelled as the `panic`
outcome) — neither ever returns content bytes. -/
theorem c8_get_unsupported :
    (∀ (st : MutableDataPackInner) (k : Key),
      MutableDataPack.get st k =
        .error (.mutableDataPack
          "DataPack doesn't support raw get(), only getdeltachain")) ∧
    (∀ (dp : V0.DataPack) (k : V0.Key),
      V0.DataPack.get dp k = .error (.panic "not implemented")) :=
  ⟨fun _ _ => rfl, fun _ _ => rfl⟩

/-- C10. `MutableDataPack::get_missing` classifies every
`StoreKey::Content` input as missing unconditionally, whatever the
writer state. -/
theorem c10_content_always_missing (st : MutableDataPackInner)
    (keys : List StoreKey) (idc : List Nat)
    (h : StoreKey.content idc ∈ keys) :
    StoreKey.content idc ∈ MutableDataPack.get_missing st keys := by
  rw [MutableDataPack.get_missing]
  exact List.mem_filter.2 ⟨h, rfl⟩

/-- C10 witness: a content key queried against a concrete writer state is
reported missing. -/
theorem c10_content_always_missing_witness :
    StoreKey.content [7] ∈ MutableDataPack.get_missing
      ⟨"p", [1], [], [1]⟩ [StoreKey.content [7]] :=
  c10_content_always_missing ⟨"p", [1], [], [1]⟩ [StoreKey.content [7]] [7]
    (List.mem_cons_self _ _)

/-- C2. Content addressing: construction writes the version byte and
seeds the hasher with exactly that byte; after any successful sequence of
adds the hasher has been fed exactly the data-file bytes, so `build_files`
names the pack `dir.join(hexdigest of the complete data-file byte
stream)` — the digest of the published data file's bytes equals the
filename stem. -/
theorem c2_content_addressing (compress : List Nat → List Nat)
    (hexdigest : List Nat → String) (dir : String)
    (l : List (Delta × Metadata)) (st : MutableDataPackInner)
    (h : addAll compress l ⟨dir, [1], [], [1]⟩ = .ok st) :
    MutableDataPackInner.new dir DataPackVersion.One =
      .ok ⟨dir, [1], [], [1]⟩ ∧
    st.hasherInput = st.fileBytes ∧
    (st.mem_index ≠ [] →
      MutableDataPackInner.build_files hexdigest st =
        .ok (st.fileBytes, st.dir ++ "/" ++ hexdigest st.fileBytes)) := by
  have hh : st.hasherInput = st.fileBytes :=
    hasherOk_addAll compress l _ st h rfl
  refine ⟨rfl, hh, fun hne => ?_⟩
  rw [MutableDataPackInner.build_files,
    if_neg (by cases hmi : st.mem_index with
      | nil => exact absurd hmi hne
      | cons a r => exact fun hc => Bool.noConfusion hc), hh]

/-- The writer state after one concrete add, used by the C2 witness. -/
def c2WitSt : MutableDataPackInner :=
  addState idCompress ⟨"p", [1], [], [1]⟩ ⟨[5], none, ⟨[97], id1⟩⟩
    ⟨none, none⟩

/-- C2 witness: the content-addressing theorem applied to one concrete
add. -/
theorem c2_content_addressing_witness :
    MutableDataPackInner.new "p" DataPackVersion.One =
      Except.ok ⟨"p", [1], [], [1]⟩ ∧
    c2WitSt.hasherInput = c2WitSt.fileBytes ∧
    (c2WitSt.mem_index ≠ [] →
      MutableDataPackInner.build_files (fun _ => "h") c2WitSt =
        Except.ok (c2WitSt.fileBytes,
          c2WitSt.dir ++ "/" ++ (fun _ => "h") c2WitSt.fileBytes)) :=
  c2_content_addressing idCompress (fun _ => "h") "p"
    [(⟨[5], none, ⟨[97], id1⟩⟩, ⟨none, none⟩)] c2WitSt rfl

/-- Whether a `StoreKey` was covered by one of the adds in `l`: an hgid
key is covered when some added delta carries its id; a content key is
never covered. -/
def addedKey (l : List (Delta × Metadata)) : StoreKey → Bool
  | .hgid key => l.any (fun p => p.1.key.hgid == key.hgid)
  | .content _ => false

theorem memLookup_addAll_isSome (c : List Nat → List Nat)
    (l : List (Delta × Metadata)) (st0 st : MutableDataPackInner)
    (h : addAll c l st0 = .ok st) (hgid : List Nat) :
    (memLookup st.mem_index hgid).isSome =
      ((memLookup st0.mem_index hgid).isSome ||
        l.any (fun p => p.1.key.hgid == hgid)) := by
  induction l generalizing st0 with
  | nil =>
    rw [addAll] at h
    cases h
    simp
  | cons p rest ih =>
    obtain ⟨d, m⟩ := p
    rw [addAll] at h
    cases hadd : MutableDataPackInner.add c st0 d m with
    | error e => rw [hadd] at h; cases h
    | ok st1 =>
      rw [hadd] at h
      obtain ⟨heq, -⟩ := add_ok c st0 d m st1 hadd
      subst heq
      have h' : addAll c rest (addState c st0 d m) = .ok st := h
      have hstep : (memLookup (addState c st0 d m).mem_index hgid).isSome =
          ((d.key.hgid == hgid) ||
            (memLookup st0.mem_index hgid).isSome) := by
        show (memLookup ((d.key.hgid, ⟨d.base.map (fun k => k.hgid),
          st0.fileBytes.length, (serializeRecord c d m).length⟩) ::
          st0.mem_index) hgid).isSome = _
        rw [memLookup]
        by_cases hd : d.key.hgid = hgid
        · rw [if_pos hd]
          simp [hd]
        · rw [if_neg hd]
          simp [hd]
      rw [ih _ h', hstep, List.any_cons]
      cases hb1 : (d.key.hgid == hgid) <;>
        cases hb2 : (memLookup st0.mem_index hgid).isSome <;>
          simp [hb1, hb2]

theorem find?_node_err_eq (entries : List V0.IndexEntry) (node : List Nat) :
    (match entries.find? (fun e => e.node == node) with
     | none => true
     | some _ => false) = !(entries.any (fun e => e.node == node)) := by
  induction entries with
  | nil => rfl
  | cons e rest ih =>
    cases hpa : (e.node == node) with
    | false =>
      rw [List.find?_cons_of_neg (p := fun e => e.node == node) rest
        (by simp [hpa])]
      simp only [List.any_cons]
      rw [hpa]
      simpa using ih
    | true =>
      rw [List.find?_cons_of_pos (p := fun e => e.node == node) rest hpa]
      simp only [List.any_cons]
      rw [hpa]
      rfl

theorem get_entry_err_eq_not_any (idx : V0.DataIndex) (node : List Nat) :
    (match idx.get_entry node with
     | .error _ => true
     | .ok _ => false) =
      !(idx.entries.any (fun e => e.node == node)) := by
  rw [V0.DataIndex.get_entry]
  cases hf : idx.entries.find? (fun e => e.node == node) with
  | none =>
    have h := find?_node_err_eq idx.entries node
    rw [hf] at h
    exact h
  | some e =>
    have h := find?_node_err_eq idx.entries node
    rw [hf] at h
    exact h

/-- C9. Missing-key filtering, for both cited implementations. Mutable
writer: after any successful sequence of adds to a fresh writer,
`get_missing` returns exactly the input keys not covered by an add
(content-addressed keys are never covered). Immutable reader
(`DataPack::get_missing`): it returns exactly the input keys whose node
is absent from the pack index's entry list. Both results are a filter of
the input — hence in input order and a sublist of the input — and both
functions are pure functions of the state, mutating nothing. -/
theorem c9_get_missing (compress : List Nat → List Nat) (dir : String)
    (l : List (Delta × Metadata)) (st : MutableDataPackInner)
    (keys : List StoreKey) (dp : V0.DataPack) (rkeys : List V0.Key)
    (h : addAll compress l ⟨dir, [1], [], [1]⟩ = .ok st) :
    MutableDataPack.get_missing st keys =
      keys.filter (fun k => !(addedKey l k)) ∧
    (MutableDataPack.get_missing st keys).Sublist keys ∧
    V0.DataPack.get_missing dp rkeys =
      rkeys.filter
        (fun k => !(dp.index.entries.any (fun e => e.node == k.node))) ∧
    (V0.DataPack.get_missing dp rkeys).Sublist rkeys := by
  refine ⟨?_, ?_, ?_, ?_⟩
  · rw [MutableDataPack.get_missing]
    refine List.filter_congr ?_
    intro k hk
    cases k with
    | content idc => rfl
    | hgid key =>
      have hchar := memLookup_addAll_isSome compress l _ st h key.hgid
      have h0 : memLookup (⟨dir, [1], [], [1]⟩ :
          MutableDataPackInner).mem_index key.hgid = none := rfl
      rw [h0] at hchar
      simp only [Option.isSome_none, Bool.false_or] at hchar
      show (memLookup st.mem_index key.hgid).isNone =
        !(l.any fun p => p.1.key.hgid == key.hgid)
      rw [← hchar]
      cases memLookup st.mem_index key.hgid <;> rfl
  · rw [MutableDataPack.get_missing]
    exact List.filter_sublist _
  · rw [V0.DataPack.get_missing]
    refine List.filter_congr ?_
    intro k hk
    exact get_entry_err_eq_not_any dp.index k.node
  · rw [V0.DataPack.get_missing]
    exact List.filter_sublist _

/-- The writer state holding ids `id1` and `id2`, used by the C9
witness. -/
def c9WitSt : MutableDataPackInner :=
  addState idCompress
    (addState idCompress ⟨"p", [1], [], [1]⟩ ⟨[5], none, ⟨[97], id1⟩⟩
      ⟨none, none⟩)
    ⟨[6], none, ⟨[97], id2⟩⟩ ⟨none, none⟩

/-- The immutable reader whose index holds nodes `id1` and `id2`, used by
the C9 witness. -/
def c9WitDp : V0.DataPack :=
  ⟨[1], 1, ⟨[⟨id1, -1, 1, 56⟩, ⟨id2, -1, 57, 56⟩]⟩⟩

/-- C9 witness: for a writer holding `{K1, K2}`, querying `[K1, K3]`
returns exactly `[K3]`, and likewise for a reader whose index holds
`{K1, K2}` — both via the filter characterization. -/
theorem c9_get_missing_witness :
    MutableDataPack.get_missing c9WitSt
      [StoreKey.hgid ⟨[97], id1⟩, StoreKey.hgid ⟨[97], id3⟩] =
      [StoreKey.hgid ⟨[97], id3⟩] ∧
    (MutableDataPack.get_missing c9WitSt
      [StoreKey.hgid ⟨[97], id1⟩, StoreKey.hgid ⟨[97], id3⟩]).Sublist
      [StoreKey.hgid ⟨[97], id1⟩, StoreKey.hgid ⟨[97], id3⟩] ∧
    V0.DataPack.get_missing c9WitDp
      [⟨[97], id1⟩, ⟨[97], id3⟩] = [⟨[97], id3⟩] ∧
    (V0.DataPack.get_missing c9WitDp
      [⟨[97], id1⟩, ⟨[97], id3⟩]).Sublist [⟨[97], id1⟩, ⟨[97], id3⟩] := by
  have hthm := c9_get_missing idCompress "p"
    [(⟨[5], none, ⟨[97], id1⟩⟩, ⟨none, none⟩),
     (⟨[6], none, ⟨[97], id2⟩⟩, ⟨none, none⟩)] c9WitSt
    [StoreKey.hgid ⟨[97], id1⟩, StoreKey.hgid ⟨[97], id3⟩]
    c9WitDp [⟨[97], id1⟩, ⟨[97], id3⟩] rfl
  exact ⟨hthm.1.trans (by decide), hthm.2.1,
    hthm.2.2.1.trans (by decide), hthm.2.2.2⟩

/-- C4. Partial-chain rule of `get_delta_chain`: a first lookup finding
no entry yields `none`; a first lookup failing with an error propagates
the error; once at least one delta has been collected, a lookup finding
no entry (or failing) ends the loop successfully with the partial chain —
in particular a one-delta chain whose base is absent returns that single
delta. -/
theorem c4_partial_chain (decompress : List Nat → Option (List Nat))
    (st : MutableDataPackInner) :
    (∀ k : Key, MutableDataPackInner.read_entry decompress st k = .ok none →
      MutableDataPack.get_delta_chain decompress st k = .ok none) ∧
    (∀ (k : Key) (e : Err),
      MutableDataPackInner.read_entry decompress st k = .error e →
      MutableDataPack.get_delta_chain decompress st k = .error e) ∧
    (∀ (k : Key) (d : Delta) (m : Metadata) (bk : Key),
      MutableDataPackInner.read_entry decompress st k = .ok (some (d, m)) →
      d.base = some bk →
      MutableDataPackInner.read_entry decompress st bk = .ok none →
      MutableDataPack.get_delta_chain decompress st k = .ok (some [d])) ∧
    (∀ (fuel : Nat) (k : Key) (chain : List Delta), chain ≠ [] →
      MutableDataPackInner.read_entry decompress st k = .ok none →
      chainLoop decompress st (fuel + 1) (some k) chain =
        .ok (some chain)) ∧
    (∀ (fuel : Nat) (k : Key) (chain : List Delta) (e : Err), chain ≠ [] →
      MutableDataPackInner.read_entry decompress st k = .error e →
      chainLoop decompress st (fuel + 1) (some k) chain =
        .ok (some chain)) := by
  refine ⟨?_, ?_, ?_, ?_, ?_⟩
  · intro k h
    rw [MutableDataPack.get_delta_chain, chainLoop_stop_none _ _ _ _ _ h]
    rfl
  · intro k e h
    rw [MutableDataPack.get_delta_chain, chainLoop_stop_error _ _ _ _ _ _ h]
    rfl
  · intro k d m bk h1 hb h2
    cases hmi : st.mem_index with
    | nil =>
      have hl0 : memLookup st.mem_index k.hgid = none := by rw [hmi]; rfl
      rw [read_entry_lookup_none decompress st k hl0] at h1
      simp at h1
    | cons a r =>
      have hlen : st.mem_index.length = r.length + 1 := by rw [hmi]; rfl
      rw [MutableDataPack.get_delta_chain, hlen,
        chainLoop_found decompress st (r.length + 1) k [] d m h1, hb,
        List.nil_append, chainLoop_stop_none decompress st r.length bk [d] h2]
      rfl
  · intro fuel k chain hne h
    rw [chainLoop_stop_none decompress st fuel k chain h]
    cases chain with
    | nil => exact absurd rfl hne
    | cons a r => rfl
  · intro fuel k chain e hne h
    rw [chainLoop_stop_error decompress st fuel k chain e h]
    cases chain with
    | nil => exact absurd rfl hne
    | cons a r => rfl

/-- The writer state holding a single delta whose base was never added,
used by the C4 witness. -/
def c4WitSt : MutableDataPackInner :=
  addState idCompress ⟨"p", [1], [], [1]⟩
    ⟨[5], some ⟨[97], id3⟩, ⟨[97], id2⟩⟩ ⟨none, none⟩

/-- C4 witness: an unknown key yields `none`; a delta whose base is
absent from the pack yields the one-delta partial chain. -/
theorem c4_partial_chain_witness :
    MutableDataPack.get_delta_chain idDecompress ⟨"p", [1], [], [1]⟩
      ⟨[97], id1⟩ = .ok none ∧
    MutableDataPack.get_delta_chain idDecompress c4WitSt ⟨[97], id2⟩ =
      .ok (some [⟨[5], some ⟨[97], id3⟩, ⟨[97], id2⟩⟩]) := by
  constructor
  · exact (c4_partial_chain idDecompress ⟨"p", [1], [], [1]⟩).1
      ⟨[97], id1⟩ rfl
  · exact (c4_partial_chain idDecompress c4WitSt).2.2.1
      ⟨[97], id2⟩ ⟨[5], some ⟨[97], id3⟩, ⟨[97], id2⟩⟩ ⟨none, none⟩
      ⟨[97], id3⟩ rfl rfl rfl

/-- The delta whose base path differs from its own path, used by the C1
counterexample. -/
def c1CexDelta : Delta := ⟨[], some ⟨[98], id2⟩, ⟨[97], id1⟩⟩

/-- The writer state after adding `c1CexDelta`. -/
def c1CexSt : MutableDataPackInner :=
  addState idCompress ⟨"p", [1], [], [1]⟩ c1CexDelta ⟨none, none⟩

/-- C1 counterexample: a delta whose base key has a different path than
its own key does not read back identically — the serialized record keeps
only the base's id, and `read_entry` rebuilds the base key with the
queried key's path, so the base comes back as `([97], id2)` instead of
the added `([98], id2)`. -/
theorem c1_counterexample :
    MutableDataPackInner.add idCompress ⟨"p", [1], [], [1]⟩ c1CexDelta
      ⟨none, none⟩ = .ok c1CexSt ∧
    MutableDataPackInner.read_entry idDecompress c1CexSt c1CexDelta.key =
      .ok (some (⟨[], some ⟨[97], id2⟩, ⟨[97], id1⟩⟩, ⟨none, none⟩)) ∧
    (⟨[], some ⟨[97], id2⟩, ⟨[97], id1⟩⟩ : Delta) ≠ c1CexDelta := by
  refine ⟨rfl, rfl, by decide⟩

/-- C1 (amended). Round-trip: after any successful sequence of adds to a
fresh writer, a well-formed added pair `(d, m)` whose id is not re-added
later is retrievable via `read_entry` (and its `get_delta`/`get_meta`
projections) with data, key and metadata identical to what was added and
with the base id preserved — but the base key's path is replaced by the
queried key's path (`readBack`); a delta added with default metadata
reads back as `{flags := none, size := none}` (the `m = ⟨none, none⟩`
instance). -/
theorem c1_roundtrip (compress : List Nat → List Nat)
    (decompress : List Nat → Option (List Nat)) (dir : String)
    (l1 l2 : List (Delta × Metadata)) (d : Delta) (m : Metadata)
    (st0 st : MutableDataPackInner)
    (h0 : MutableDataPackInner.new dir DataPackVersion.One = .ok st0)
    (h : addAll compress (l1 ++ (d, m) :: l2) st0 = .ok st)
    (hwf : WFAdd compress d m)
    (hdec : decompress (compress d.data) = some d.data)
    (hlast : ∀ p ∈ l2, p.1.key.hgid ≠ d.key.hgid) :
    MutableDataPackInner.read_entry decompress st d.key =
      .ok (some (readBack d d.key.path, m)) ∧
    MutableDataPack.get_delta decompress st d.key =
      .ok (some (readBack d d.key.path)) ∧
    MutableDataPack.get_meta decompress st d.key = .ok (some m) := by
  have hst0 : st0 = ⟨dir, [1], [], [1]⟩ := by
    have h0' : (Except.ok ⟨dir, [1], [], [1]⟩ :
        Except Err MutableDataPackInner) = Except.ok st0 := h0
    injection h0' with h2
    exact h2.symm
  subst hst0
  have hre := read_entry_addAll_mem compress decompress l1 l2 d m _ st
    (stInv_fresh dir) h hwf hdec hlast
  exact ⟨hre, get_delta_of_read _ _ _ _ _ hre,
    get_meta_of_read _ _ _ _ _ hre⟩

/-- The delta used by the C1 witness. -/
def c1WitDelta : Delta := ⟨[5], some ⟨[97], id2⟩, ⟨[97], id1⟩⟩

/-- The metadata used by the C1 witness. -/
def c1WitMeta : Metadata := ⟨some 7, some 1000⟩

/-- The writer state after the C1 witness add. -/
def c1WitSt : MutableDataPackInner :=
  addState idCompress ⟨"p", [1], [], [1]⟩ c1WitDelta c1WitMeta

/-- C1 witness: the amended round-trip applied to one concrete add. -/
theorem c1_roundtrip_witness :
    addAll idCompress [(c1WitDelta, c1WitMeta)] ⟨"p", [1], [], [1]⟩ =
      Except.ok c1WitSt ∧
    MutableDataPackInner.read_entry idDecompress c1WitSt c1WitDelta.key =
      Except.ok (some (readBack c1WitDelta c1WitDelta.key.path,
        c1WitMeta)) ∧
    MutableDataPack.get_meta idDecompress c1WitSt c1WitDelta.key =
      Except.ok (some c1WitMeta) := by
  have hwf : WFAdd idCompress c1WitDelta c1WitMeta :=
    ⟨by decide, by decide,
     fun bk hbk => by cases hbk; exact ⟨by decide, by decide⟩,
     by decide,
     fun f hf => by cases hf; decide,
     fun s hs => by cases hs; decide⟩
  have h := c1_roundtrip idCompress idDecompress "p" [] [] c1WitDelta
    c1WitMeta ⟨"p", [1], [], [1]⟩ c1WitSt rfl rfl hwf rfl
    (fun p hp => absurd hp (List.not_mem_nil p))
  exact ⟨rfl, h.1, h.2.2⟩

/-- Full text `A` of the C3 counterexample (path `[97]`). -/
def c3A : Delta := ⟨[100], none, ⟨[97], id1⟩⟩

/-- Delta `B` based on `A`, with its own path `[98]`. -/
def c3B : Delta := ⟨[101], some ⟨[97], id1⟩, ⟨[98], id2⟩⟩

/-- Delta `C` based on `B`, with its own path `[99]`. -/
def c3C : Delta := ⟨[102], some ⟨[98], id2⟩, ⟨[99], id3⟩⟩

/-- The writer state after adding `c3A`, `c3B`, `c3C`. -/
def c3CexSt : MutableDataPackInner :=
  addState idCompress
    (addState idCompress
      (addState idCompress ⟨"p", [1], [], [1]⟩ c3A ⟨none, none⟩)
      c3B ⟨none, none⟩)
    c3C ⟨none, none⟩

/-- C3 counterexample: with `A`, `B`, `C` added (bases chained, but each
delta on its own path), `get_delta_chain(C)` does not return `[C, B, A]`:
every rebuilt key and base carries the originally queried path `[99]`, so
the returned chain differs from the added deltas. -/
theorem c3_counterexample :
    addAll idCompress
      [(c3A, ⟨none, none⟩), (c3B, ⟨none, none⟩), (c3C, ⟨none, none⟩)]
      ⟨"p", [1], [], [1]⟩ = .ok c3CexSt ∧
    MutableDataPack.get_delta_chain idDecompress c3CexSt c3C.key =
      .ok (some [⟨[102], some ⟨[99], id2⟩, ⟨[99], id3⟩⟩,
                 ⟨[101], some ⟨[99], id1⟩, ⟨[99], id2⟩⟩,
                 ⟨[100], none, ⟨[99], id1⟩⟩]) ∧
    ([⟨[102], some ⟨[99], id2⟩, ⟨[99], id3⟩⟩,
      ⟨[101], some ⟨[99], id1⟩, ⟨[99], id2⟩⟩,
      ⟨[100], none, ⟨[99], id1⟩⟩] : List Delta) ≠ [c3C, c3B, c3A] := by
  refine ⟨rfl, rfl, by decide⟩

/-- C3 (amended). Delta chain reconstruction for three well-formed deltas
`A` (full text), `B` (base = A's key), `C` (base = B's key) that share
one path and carry pairwise distinct ids, all added to one fresh writer:
`get_delta_chain(C's key)` returns `Some [C, B, A]` in that order and
`get_delta_chain(A's key)` returns `Some [A]`. -/
theorem c3_delta_chain (compress : List Nat → List Nat)
    (decompress : List Nat → Option (List Nat)) (dir : String)
    (p : List Nat) (dA dB dC : Delta) (mA mB mC : Metadata)
    (st : MutableDataPackInner)
    (hApath : dA.key.path = p) (hBpath : dB.key.path = p)
    (hCpath : dC.key.path = p)
    (hAbase : dA.base = none) (hBbase : dB.base = some dA.key)
    (hCbase : dC.base = some dB.key)
    (hAB : dA.key.hgid ≠ dB.key.hgid) (hAC : dA.key.hgid ≠ dC.key.hgid)
    (hBC : dB.key.hgid ≠ dC.key.hgid)
    (hwfA : WFAdd compress dA mA) (hwfB : WFAdd compress dB mB)
    (hwfC : WFAdd compress dC mC)
    (hdecA : decompress (compress dA.data) = some dA.data)
    (hdecB : decompress (compress dB.data) = some dB.data)
    (hdecC : decompress (compress dC.data) = some dC.data)
    (h : addAll compress [(dA, mA), (dB, mB), (dC, mC)]
      ⟨dir, [1], [], [1]⟩ = .ok st) :
    MutableDataPack.get_delta_chain decompress st dC.key =
      .ok (some [dC, dB, dA]) ∧
    MutableDataPack.get_delta_chain decompress st dA.key =
      .ok (some [dA]) := by
  have hstep : addAll compress [(dA, mA), (dB, mB), (dC, mC)]
      ⟨dir, [1], [], [1]⟩ =
      .ok (addState compress (addState compress (addState compress
        ⟨dir, [1], [], [1]⟩ dA mA) dB mB) dC mC) := by
    rw [addAll_cons_ok _ _ _ _ _ hwfA.1, addAll_cons_ok _ _ _ _ _ hwfB.1,
      addAll_cons_ok _ _ _ _ _ hwfC.1, addAll]
  rw [hstep] at h
  injection h with h'
  subst h'
  have hi0 : stInv ⟨dir, [1], [], [1]⟩ := stInv_fresh dir
  have hi1 := stInv_addState compress _ dA mA hi0
  have hi2 := stInv_addState compress _ dB mB hi1
  have hCC : readBack dC dC.key.path = dC := by
    have hkey : Key.mk dC.key.path dB.key.hgid = dB.key := by
      rw [hCpath, ← hBpath]
    calc readBack dC dC.key.path
        = ⟨dC.data, (some dB.key).map (fun k => Key.mk dC.key.path k.hgid),
            Key.mk dC.key.path dC.key.hgid⟩ := by rw [readBack, hCbase]
      _ = ⟨dC.data, some (Key.mk dC.key.path dB.key.hgid), dC.key⟩ := rfl
      _ = ⟨dC.data, some dB.key, dC.key⟩ := by rw [hkey]
      _ = dC := by rw [← hCbase]
  have rC0 := read_entry_addState compress decompress
    (addState compress (addState compress ⟨dir, [1], [], [1]⟩ dA mA) dB mB)
    dC mC dC.key.path hwfC hdecC
  rw [hCC] at rC0
  have rB : MutableDataPackInner.read_entry decompress
      (addState compress (addState compress (addState compress
        ⟨dir, [1], [], [1]⟩ dA mA) dB mB) dC mC) dB.key =
      .ok (some (dB, mB)) := by
    rw [read_entry_addState_other compress decompress _ dC mC dB.key hBC hi2]
    have hBB : readBack dB dB.key.path = dB := by
      have hkey : Key.mk dB.key.path dA.key.hgid = dA.key := by
        rw [hBpath, ← hApath]
      calc readBack dB dB.key.path
          = ⟨dB.data, (some dA.key).map (fun k => Key.mk dB.key.path k.hgid),
              Key.mk dB.key.path dB.key.hgid⟩ := by rw [readBack, hBbase]
        _ = ⟨dB.data, some (Key.mk dB.key.path dA.key.hgid), dB.key⟩ := rfl
        _ = ⟨dB.data, some dA.key, dB.key⟩ := by rw [hkey]
        _ = dB := by rw [← hBbase]
    have rB0 := read_entry_addState compress decompress
      (addState compress ⟨dir, [1], [], [1]⟩ dA mA) dB mB dB.key.path
      hwfB hdecB
    rw [hBB] at rB0
    exact rB0
  have rA : MutableDataPackInner.read_entry decompress
      (addState compress (addState compress (addState compress
        ⟨dir, [1], [], [1]⟩ dA mA) dB mB) dC mC) dA.key =
      .ok (some (dA, mA)) := by
    rw [read_entry_addState_other compress decompress _ dC mC dA.key hAC hi2,
      read_entry_addState_other compress decompress _ dB mB dA.key hAB hi1]
    have hAA : readBack dA dA.key.path = dA := by
      calc readBack dA dA.key.path
          = ⟨dA.data, (none : Option Key).map
              (fun k => Key.mk dA.key.path k.hgid),
              Key.mk dA.key.path dA.key.hgid⟩ := by rw [readBack, hAbase]
        _ = ⟨dA.data, none, dA.key⟩ := rfl
        _ = dA := by rw [← hAbase]
    have rA0 := read_entry_addState compress decompress ⟨dir, [1], [], [1]⟩
      dA mA dA.key.path hwfA hdecA
    rw [hAA] at rA0
    exact rA0
  have hlen : (addState compress (addState compress (addState compress
      ⟨dir, [1], [], [1]⟩ dA mA) dB mB) dC mC).mem_index.length =
      1 + 1 + 1 := by
    simp [addState]
  constructor
  · rw [MutableDataPack.get_delta_chain, hlen,
      chainLoop_found decompress _ (1 + 1 + 1) dC.key [] dC mC rC0, hCbase,
      chainLoop_found decompress _ (1 + 1) dB.key ([] ++ [dC]) dB mB rB,
      hBbase,
      chainLoop_found decompress _ 1 dA.key (([] ++ [dC]) ++ [dB]) dA mA rA,
      hAbase, chainLoop_done]
    simp
  · rw [MutableDataPack.get_delta_chain, hlen,
      chainLoop_found decompress _ (1 + 1 + 1) dA.key [] dA mA rA,
      hAbase, chainLoop_done]
    simp

/-- Full text `A` of the C3 witness (shared path `[97]`). -/
def c3WA : Delta := ⟨[10], none, ⟨[97], id1⟩⟩

/-- Delta `B` based on `A` of the C3 witness. -/
def c3WB : Delta := ⟨[11], some ⟨[97], id1⟩, ⟨[97], id2⟩⟩

/-- Delta `C` based on `B` of the C3 witness. -/
def c3WC : Delta := ⟨[12], some ⟨[97], id2⟩, ⟨[97], id3⟩⟩

/-- The writer state after adding `c3WA`, `c3WB`, `c3WC`. -/
def c3WitSt : MutableDataPackInner :=
  addState idCompress
    (addState idCompress
      (addState idCompress ⟨"p", [1], [], [1]⟩ c3WA ⟨none, none⟩)
      c3WB ⟨none, none⟩)
    c3WC ⟨none, none⟩

/-- C3 witness: the amended chain theorem applied to three concrete
same-path deltas. -/
theorem c3_delta_chain_witness :
    MutableDataPack.get_delta_chain idDecompress c3WitSt c3WC.key =
      .ok (some [c3WC, c3WB, c3WA]) ∧
    MutableDataPack.get_delta_chain idDecompress c3WitSt c3WA.key =
      .ok (some [c3WA]) := by
  have hwfA : WFAdd idCompress c3WA ⟨none, none⟩ :=
    ⟨by decide, by decide, (fun bk hbk => by cases hbk), by decide,
     (fun f hf => by cases hf), (fun s hs => by cases hs)⟩
  have hwfB : WFAdd idCompress c3WB ⟨none, none⟩ :=
    ⟨by decide, by decide,
     (fun bk hbk => by cases hbk; exact ⟨by decide, by decide⟩), by decide,
     (fun f hf => by cases hf), (fun s hs => by cases hs)⟩
  have hwfC : WFAdd idCompress c3WC ⟨none, none⟩ :=
    ⟨by decide, by decide,
     (fun bk hbk => by cases hbk; exact ⟨by decide, by decide⟩), by decide,
     (fun f hf => by cases hf), (fun s hs => by cases hs)⟩
  exact c3_delta_chain idCompress idDecompress "p" [97] c3WA c3WB c3WC
    ⟨none, none⟩ ⟨none, none⟩ ⟨none, none⟩ c3WitSt rfl rfl rfl rfl rfl rfl
    (by decide) (by decide) (by decide) hwfA hwfB hwfC rfl rfl rfl rfl

theorem sliceGet_some (buf : List Nat) (a b : Nat) (mid : List Nat)
    (h : sliceGet buf a b = some mid) :
    a ≤ b ∧ b ≤ buf.length ∧ mid.length = b - a := by
  rw [sliceGet] at h
  split at h
  · cases h
    rename_i hc
    exact ⟨hc.1, hc.2, by simp [List.length_take, List.length_drop]; omega⟩
  · cases h

/-- C7. Bounds safety of record parsing: `DataEntry::new` returns the
descriptive `DataPackError` when the declared filename length or the
declared compressed-data length runs past the end of the buffer, and
whenever it succeeds the whole parsed record lies within the buffer (no
silent truncation); as a total Lean function it cannot panic. -/
theorem c7_parse_bounds (buf : List Nat) (offset : Nat) :
    (∀ flen, readU16? buf offset = some flen →
      buf.length < offset + 2 + flen →
      DataEntry.new buf offset 1 =
        .error (.dataPack "buffer not long enough to read filename")) ∧
    (∀ flen dlen, readU16? buf offset = some flen →
      offset + 2 + flen + 48 ≤ buf.length →
      readU64? buf (offset + 2 + flen + 40) = some dlen →
      buf.length < offset + 2 + flen + 48 + dlen →
      DataEntry.new buf offset 1 =
        .error (.dataPack "buffer not long enough to read data")) ∧
    (∀ entry, DataEntry.new buf offset 1 = .ok entry →
      offset + 2 + entry.filename.length + 48 +
        entry.compressed_data.length ≤ buf.length) := by
  refine ⟨?_, ?_, ?_⟩
  · intro flen h16 hover
    have hsl : sliceGet buf (offset + 2) (offset + 2 + flen) = none := by
      rw [sliceGet, if_neg]
      rintro ⟨-, hh⟩
      omega
    simp only [DataEntry.new, h16, hsl]
  · intro flen dlen h16 hfits hu64 hover
    have hsl : sliceGet buf (offset + 2) (offset + 2 + flen) =
        some ((buf.drop (offset + 2)).take (offset + 2 + flen -
          (offset + 2))) := by
      rw [sliceGet, if_pos ⟨by omega, by omega⟩]
    have hnode : readBytes? buf (offset + 2 + flen) 20 =
        some ((buf.drop (offset + 2 + flen)).take 20) := by
      rw [readBytes?, if_pos (by omega)]
    have hbase : readBytes? buf (offset + 2 + flen + 20) 20 =
        some ((buf.drop (offset + 2 + flen + 20)).take 20) := by
      rw [readBytes?, if_pos (by omega)]
    have hdata : sliceGet buf (offset + 2 + flen + 48)
        (offset + 2 + flen + 48 + dlen) = none := by
      rw [sliceGet, if_neg]
      rintro ⟨-, hh⟩
      omega
    simp only [DataEntry.new, h16, hsl, hnode, hbase, hu64, hdata]
  · intro entry hok
    cases h16 : readU16? buf offset with
    | none => simp [DataEntry.new, h16] at hok
    | some flen =>
      cases hsl : sliceGet buf (offset + 2) (offset + 2 + flen) with
      | none => simp [DataEntry.new, h16, hsl] at hok
      | some fn =>
        cases hnode : readBytes? buf (offset + 2 + flen) 20 with
        | none => simp [DataEntry.new, h16, hsl, hnode] at hok
        | some nd =>
          cases hbase : readBytes? buf (offset + 2 + flen + 20) 20 with
          | none => simp [DataEntry.new, h16, hsl, hnode, hbase] at hok
          | some db =>
            cases hu64 : readU64? buf (offset + 2 + flen + 40) with
            | none =>
              simp [DataEntry.new, h16, hsl, hnode, hbase, hu64] at hok
            | some dlen =>
              cases hdata : sliceGet buf (offset + 2 + flen + 48)
                  (offset + 2 + flen + 48 + dlen) with
              | none =>
                simp [DataEntry.new, h16, hsl, hnode, hbase, hu64,
                  hdata] at hok
              | some cd =>
                cases hmd : Metadata.read buf
                    (offset + 2 + flen + 48 + dlen) with
                | error e =>
                  simp [DataEntry.new, h16, hsl, hnode, hbase, hu64,
                    hdata, hmd] at hok
                | ok r =>
                  obtain ⟨md, q⟩ := r
                  rw [show DataEntry.new buf offset 1 =
                      .ok ⟨offset, fn, nd, db, cd, md, q⟩ from by
                    simp only [DataEntry.new, h16, hsl, hnode, hbase,
                      hu64, hdata, hmd]
                    rfl] at hok
                  injection hok with he
                  rw [← he]
                  obtain ⟨-, hf2, hf3⟩ := sliceGet_some _ _ _ _ hsl
                  obtain ⟨-, hd2, hd3⟩ := sliceGet_some _ _ _ _ hdata
                  show offset + 2 + fn.length + 48 + cd.length ≤ buf.length
                  omega

/-- C7 witness: a buffer declaring a 5-byte filename but ending right
after the length field fails with the descriptive filename bounds error,
and a buffer whose declared compressed length overruns the end fails with
the data bounds error. -/
theorem c7_parse_bounds_witness :
    DataEntry.new [0, 5] 0 1 =
      .error (.dataPack "buffer not long enough to read filename") ∧
    DataEntry.new ([0, 0] ++ id1 ++ id2 ++ u64BE 9 ++ [1]) 0 1 =
      .error (.dataPack "buffer not long enough to read data") := by
  constructor
  · exact (c7_parse_bounds [0, 5] 0).1 5 rfl (by decide)
  · exact (c7_parse_bounds ([0, 0] ++ id1 ++ id2 ++ u64BE 9 ++ [1]) 0).2.1
      0 9 rfl (by decide) rfl (by decide)
